import Mathlib

/-!
photo-frame: grid layout, slot registry, intake and teardown.

A shallow embedding of `src/opengl.go`, `src/app.go` and `src/main.go`.

Modelling conventions.
* Go `int` values are `Int`, 64 bits wide: the products, quotients and sums
  that `Run` and the layout compute on `int` wrap around (`wrapInt`).  `/` and
  `%` on `int` are the truncated operations `Int.tdiv` and `Int.tmod`; a zero
  divisor is a run-time panic, modelled by `none`.  Slice indexing out of range
  is a panic as well.
* `float64` and `float32` values are `ℚ`: the floating-point arithmetic of the
  layout is read as exact rational arithmetic, so the conversions
  `float64(..)` and `float32(..)` are the identity (respectively the cast
  `Int → ℚ`).
* Calls into OpenGL, GLFW and the network are external; their results
  (generated texture names, framebuffer size, errors) are parameters.
  `gl.GetError` is taken to report no error, so `glCheckErr` does not panic.
* A Go `select` runs one of its cases that can proceed, chosen at random; the
  case that runs is a parameter of the model.
-/

namespace PhotoFrame

/-! ## Data model -/

/-- Go `image.Point`. -/
structure Point where
  X : Int
  Y : Int
deriving DecidableEq, Repr

/-- Go `image.Rectangle`. -/
structure Rectangle where
  Min : Point
  Max : Point
deriving DecidableEq, Repr

/-- Go `Rectangle.Size`. -/
def Rectangle.Size (r : Rectangle) : Point :=
  ⟨r.Max.X - r.Min.X, r.Max.Y - r.Min.Y⟩

/-- Go `image.NRGBA`: pixel bytes, stride and bounds. -/
structure NRGBA where
  Pix : List Nat
  Stride : Int
  Rect : Rectangle
deriving DecidableEq, Repr

/-- One vertex of a quad: `coordUV` of `app.go`. -/
structure coordUV where
  Pos : ℚ × ℚ
  UV : ℚ × ℚ
deriving DecidableEq

/-- The array type `[4]coordUV`, as the list of its four entries. -/
abbrev Quad := List coordUV

/-- Zero value of `[4]coordUV`. -/
def Quad.zero : Quad := List.replicate 4 ⟨(0, 0), (0, 0)⟩

/-- Go `int` is 64 bits wide: the value of an `int` expression whose exact
value is `x`. -/
def wrapInt (x : Int) : Int :=
  (x + 2 ^ 63) % 2 ^ 64 - 2 ^ 63

/-- Go integer division `a / b`: truncated, panics on a zero divisor; the
quotient of the most negative `int` by `-1` wraps around. -/
def goDiv (a b : Int) : Option Int :=
  if b = 0 then none else some (wrapInt (Int.tdiv a b))

/-- Go integer remainder `a % b`: truncated, panics on a zero divisor. -/
def goMod (a b : Int) : Option Int :=
  if b = 0 then none else some (Int.tmod a b)

/-! ## `opengl.go` -/

/-- Function `calcScale` of `opengl.go`. -/
def calcScale (dst src : Point) : ℚ × ℚ :=
  if dst.X = 0 ∨ dst.Y = 0 then (1, 1)
  else if src.X = 0 ∨ src.Y = 0 then (1, 1)
  else
    let dstAspect : ℚ := (dst.X : ℚ) / (dst.Y : ℚ)
    let srcAspect : ℚ := (src.X : ℚ) / (src.Y : ℚ)
    if dstAspect ≤ srcAspect then (1, dstAspect / srcAspect)
    else (srcAspect / dstAspect, 1)

/-- Function `calcOffset` of `opengl.go`. -/
def calcOffset (sw sh w h : ℚ) : ℚ × ℚ :=
  ((1 - sw) * w / 2, (1 - sh) * h / 2)

/-! ## `app.go`: layout -/

/-- Body of the first loop of `updateCoordsWith`: fold one image size into
`maxSize`, skipping the zero size. -/
def maxSizeStep (maxSize sz : Point) : Point :=
  if sz = ⟨0, 0⟩ then maxSize
  else
    let m1 : Point :=
      if maxSize.X ≤ 0 ∨ maxSize.X < sz.X then ⟨sz.X, maxSize.Y⟩ else maxSize
    if m1.Y ≤ 0 ∨ m1.Y < sz.Y then ⟨m1.X, sz.Y⟩ else m1

/-- First corner loop of `updateCoordsWith` (`for ci := range 4`): the corner
`ci` of the full cell `(xi, yi)`. -/
def cellCorner (screenOffX screenOffY gridFx gridFy : ℚ) (xi yi : Int) (ci : Nat) :
    coordUV :=
  let cx : Int := (ci % 2 : Nat)
  let cy : Int := (ci / 2 : Nat)
  { Pos := (screenOffX + ((wrapInt (xi + cx) : Int) : ℚ) * gridFx - 1,
            screenOffY + ((wrapInt (yi + cy) : Int) : ℚ) * gridFy - 1),
    UV := (((cx : Int) : ℚ), ((cy : Int) : ℚ)) }

/-- Second corner loop of `updateCoordsWith` (`for ci := range corners`): move
the corner `ci` inwards by `(dx, dy)`. -/
def shrinkCorner (dx dy : ℚ) (ci : Nat) (c : coordUV) : coordUV :=
  let x : ℚ :=
    if ci = 0 ∨ ci = 2 then c.Pos.1 + dx
    else if ci = 1 ∨ ci = 3 then c.Pos.1 - dx
    else c.Pos.1
  let y : ℚ :=
    if ci = 0 ∨ ci = 1 then c.Pos.2 + dy
    else if ci = 2 ∨ ci = 3 then c.Pos.2 - dy
    else c.Pos.2
  { c with Pos := (x, y) }

/-- Body of the cell loop of `updateCoordsWith` for the cell `i` with recorded
image size `sz`: the quad written to `coordsAndUV[i]`. -/
def cellQuad (grid cellSize : Point) (screenOffX screenOffY gridFx gridFy : ℚ)
    (i : Nat) (sz : Point) : Option Quad := do
  let yi ← goDiv i grid.X
  let xi ← goMod i grid.X
  let corners : Quad :=
    (List.range 4).map (cellCorner screenOffX screenOffY gridFx gridFy xi yi)
  let scale := calcScale cellSize sz
  let d := calcOffset scale.1 scale.2 gridFx gridFy
  pure ((List.range 4).map
    (fun ci => shrinkCorner d.1 d.2 ci (corners.getD ci ⟨(0, 0), (0, 0)⟩)))

/-- Cell loop of `updateCoordsWith` (`for i, sz := range a.imageSizes`), started
at index `i`; `coordsAndUV[i]` out of range is a panic. -/
def cellsLoop (f : Nat → Point → Option Quad) :
    Nat → List Point → List Quad → Option (List Quad)
  | _, [], coords => some coords
  | i, sz :: rest, coords =>
    if i < coords.length then
      match f i sz with
      | some q => cellsLoop f (i + 1) rest (coords.set i q)
      | none => none
    else none

/-- Layout computed by `App.updateCoordsWith` from the fields it reads
(`conf.GridSize`, `imageSizes`, `coordsAndUV`) and the screen size; the result is
the new `coordsAndUV`, or `none` when the code panics. -/
def layout (grid : Point) (imageSizes : List Point) (coordsAndUV : List Quad)
    (screen : Point) : Option (List Quad) := do
  let maxSize0 : Point := imageSizes.foldl maxSizeStep ⟨0, 0⟩
  let maxSize : Point ←
    if maxSize0 = ⟨0, 0⟩ then do
      let x ← goDiv screen.X grid.X
      let y ← goDiv screen.Y grid.Y
      pure (⟨x, y⟩ : Point)
    else pure maxSize0
  let idealSize : Point := ⟨wrapInt (maxSize.X * grid.X), wrapInt (maxSize.Y * grid.Y)⟩
  let screenScale := calcScale screen idealSize
  let screenOff := calcOffset screenScale.1 screenScale.2 2 2
  let cw ← goDiv idealSize.X grid.X
  let ch ← goDiv idealSize.Y grid.Y
  let cellSize : Point := ⟨cw, ch⟩
  let gridFx : ℚ := 2 * screenScale.1 / (grid.X : ℚ)
  let gridFy : ℚ := 2 * screenScale.2 / (grid.Y : ℚ)
  cellsLoop (cellQuad grid cellSize screenOff.1 screenOff.2 gridFx gridFy)
    0 imageSizes coordsAndUV

/-- Value of the local `maxSize` of `updateCoordsWith` after the fallback to
the even split, for a grid without zero component. -/
def layoutMaxSize (grid : Point) (imageSizes : List Point) (screen : Point) : Point :=
  if imageSizes.foldl maxSizeStep ⟨0, 0⟩ = ⟨0, 0⟩ then
    ⟨wrapInt (Int.tdiv screen.X grid.X), wrapInt (Int.tdiv screen.Y grid.Y)⟩
  else imageSizes.foldl maxSizeStep ⟨0, 0⟩

/-- Value of the local `idealSize` of `updateCoordsWith`. -/
def layoutIdealSize (grid : Point) (imageSizes : List Point) (screen : Point) : Point :=
  ⟨wrapInt ((layoutMaxSize grid imageSizes screen).X * grid.X),
   wrapInt ((layoutMaxSize grid imageSizes screen).Y * grid.Y)⟩

/-- Value of the locals `screenScaleW, screenScaleH` of `updateCoordsWith`. -/
def layoutScreenScale (grid : Point) (imageSizes : List Point) (screen : Point) : ℚ × ℚ :=
  calcScale screen (layoutIdealSize grid imageSizes screen)

/-- Value of the local `cellSize` of `updateCoordsWith`, for a grid without zero
component. -/
def layoutCellSize (grid : Point) (imageSizes : List Point) (screen : Point) : Point :=
  ⟨wrapInt (Int.tdiv (layoutIdealSize grid imageSizes screen).X grid.X),
   wrapInt (Int.tdiv (layoutIdealSize grid imageSizes screen).Y grid.Y)⟩

/-! ## `app.go`: application state -/

/-- Go `Config`. -/
structure Config where
  Host : String
  Monitor : Int
  FullScreen : Bool
  WindowSize : Point
  GridSize : Point

/-- Go `New` replaces an empty host by the default one. -/
def Config.withDefaultHost (c : Config) : Config :=
  if c.Host = "" then { c with Host := "127.0.0.1:8181" } else c

/-- The release closures that `app.go` passes to `onClose`, named by what they
call; a closure that captures a handle carries it. -/
inductive Callback where
  | listenerClose
  | unlockOSThread
  | glfwTerminate
  | winDestroy
  | deleteVertexArrays
  | deleteShader (s : Nat)
  | deleteProgram (p : Nat)
  | deleteTextures
deriving DecidableEq, Repr

/-- Go `App`, with the two pieces of external state its methods act on:
`texImage` (the image last uploaded into each GL texture name) and `released`
(the release closures run so far, in order). -/
structure App where
  conf : Config
  close : List Callback
  n : Int
  resized : Bool
  prog : Nat
  textures : List Nat
  showTextures : List Nat
  tmpTexture : Nat
  curIndex : Int
  imageSizes : List Point
  coordsAndUV : List Quad
  texImage : Nat → Option NRGBA
  released : List Callback

/-- Go `New`. -/
def New (c : Config) : App :=
  { conf := c.withDefaultHost, close := [], n := 0, resized := false, prog := 0,
    textures := [], showTextures := [], tmpTexture := 0, curIndex := 0,
    imageSizes := [], coordsAndUV := [], texImage := fun _ => none, released := [] }

/-- Method `App.onClose`. -/
def App.onClose (a : App) (fnc : Callback) : App :=
  { a with close := a.close ++ [fnc] }

/-- Method `App.updateCoordsWith`; `none` is a panic. -/
def App.updateCoordsWith (a : App) (screen : Point) : Option App :=
  (layout a.conf.GridSize a.imageSizes a.coordsAndUV screen).map
    (fun c => { a with coordsAndUV := c })

/-- Method `App.updateCoords`; `fb` is what `GetFramebufferSize` returns. -/
def App.updateCoords (a : App) (fb : Point) : Option App :=
  a.updateCoordsWith fb

/-- Method `App.initTextures`; `gen i` is the `i`-th name that `gl.GenTextures`
writes into `a.textures`. -/
def App.initTextures (a : App) (gen : Nat → Nat) : App :=
  let textures := (List.range (a.n + 1).toNat).map gen
  let a1 := { a with textures := textures }
  let a2 := a1.onClose Callback.deleteTextures
  { a2 with
    showTextures := textures.take a.n.toNat
    tmpTexture := textures.getD (textures.length - 1) 0
    imageSizes := List.replicate a.n.toNat ⟨0, 0⟩
    curIndex := -1 }

/-- Method `App.initVertBuf`. -/
def App.initVertBuf (a : App) (fb : Point) : Option App :=
  App.updateCoords { a with coordsAndUV := List.replicate a.n.toNat Quad.zero } fb

/-- Method `App.addImage`; `fb` is the framebuffer size read by `updateCoords`.
`none` is a panic: `%` by zero, or an index out of range. -/
def App.addImage (a : App) (img : NRGBA) (fb : Point) : Option App := do
  let cur ← goMod (a.curIndex + 1) a.n
  if cur < 0 ∨ (a.imageSizes.length : Int) ≤ cur then none
  else if (a.showTextures.length : Int) ≤ cur then none
  else
    let i := cur.toNat
    let a1 : App :=
      { a with
        curIndex := cur
        imageSizes := a.imageSizes.set i img.Rect.Size
        texImage := Function.update a.texImage a.tmpTexture (some img)
        showTextures := a.showTextures.set i a.tmpTexture
        tmpTexture := a.showTextures.getD i 0 }
    a1.updateCoords fb

/-- Repeated `addImage`, one call per pair of an image and the framebuffer size
at the time of the call. -/
def App.addImagesSeq (a : App) : List (NRGBA × Point) → Option App
  | [] => some a
  | (img, fb) :: rest =>
    match a.addImage img fb with
    | some a1 => a1.addImagesSeq rest
    | none => none

/-- What `Run` and `initTextures`, `initVertBuf` establish and `addImage` keeps:
`n` is positive, the grid has no zero component, the three per-cell slices have
`n` entries and the cursor is `-1` or a slot index. -/
def App.RegistryOk (a : App) : Prop :=
  1 ≤ a.n ∧ a.conf.GridSize.X ≠ 0 ∧ a.conf.GridSize.Y ≠ 0 ∧
  a.showTextures.length = a.n.toNat ∧ a.imageSizes.length = a.n.toNat ∧
  a.coordsAndUV.length = a.n.toNat ∧ -1 ≤ a.curIndex ∧ a.curIndex < a.n

/-- The image shown in display slot `j`: what was last uploaded into the
texture name `showTextures[j]`. -/
def App.shown (a : App) (j : Nat) : Option NRGBA :=
  match a.showTextures[j]? with
  | some t => a.texImage t
  | none => none

/-! ## `app.go`: start-up, render loop and teardown -/

/-- What a Go function with result type `error` does: return `nil`, return an
error, or panic. -/
inductive Outcome where
  | nil
  | err (msg : String)
  | panicked
deriving DecidableEq, Repr

/-- Results of the external calls that `Run` makes before entering the loop. -/
structure Env where
  /-- error of `net.Listen` -/
  listen : Option String
  /-- error of `glfw.Init` -/
  glfwInit : Option String
  /-- `len(glfw.GetMonitors())` -/
  monitors : Nat
  /-- error of `glfw.CreateWindow` -/
  createWindow : Option String
  /-- error of `gl.Init` -/
  glInit : Option String
  /-- result of `compileShader(gl.VERTEX_SHADER, ..)` -/
  compileVert : Except String Nat
  /-- result of `compileShader(gl.FRAGMENT_SHADER, ..)` -/
  compileFrag : Except String Nat
  /-- result of `compileProgram` -/
  compileProg : Except String Nat
  /-- names written by `gl.GenTextures` -/
  genTextures : Nat → Nat
  /-- framebuffer size at start-up -/
  fbSize : Point

/-- Method `App.startListener`. -/
def App.startListener (a : App) (env : Env) : Option String × App :=
  match env.listen with
  | some e => (some e, a)
  | none => (none, a.onClose Callback.listenerClose)

/-- Method `App.initWindow`: monitor selection, window creation, registration
of `win.Destroy`. -/
def App.initWindow (a : App) (env : Env) : Option String × App :=
  if 0 ≤ a.conf.Monitor ∧ (env.monitors : Int) ≤ a.conf.Monitor then
    (some "no monitor found", a)
  else
    match env.createWindow with
    | some e => (some e, a)
    | none => (none, a.onClose Callback.winDestroy)

/-- Method `App.initGL`. -/
def App.initGL (a : App) (env : Env) : Option String × App :=
  match env.glInit with
  | some e => (some ("OpenGL init failed: " ++ e), a)
  | none => (none, a)

/-- Method `App.initVertArr`. -/
def App.initVertArr (a : App) : App :=
  a.onClose Callback.deleteVertexArrays

/-- Method `App.compileShaders`. -/
def App.compileShaders (a : App) (env : Env) : Option String × App :=
  match env.compileVert with
  | .error e => (some ("cannot compile vertex shader: " ++ e), a)
  | .ok vert =>
    let a1 := a.onClose (Callback.deleteShader vert)
    match env.compileFrag with
    | .error e => (some ("cannot compile vertex shader: " ++ e), a1)
    | .ok frag =>
      let a2 := a1.onClose (Callback.deleteShader frag)
      match env.compileProg with
      | .error e => (some e, a2)
      | .ok prog =>
        let a3 := a2.onClose (Callback.deleteProgram prog)
        (none, { a3 with prog := prog })

/-- What one iteration of `App.loop` can observe. -/
structure LoopInput where
  /-- `a.win.ShouldClose()` -/
  shouldClose : Bool
  /-- `ctx.Done()` is closed -/
  doneReady : Bool
  /-- a sender waits on `gridReq` with this value -/
  gridReq : Option Point
  /-- images buffered in `imageReq`, oldest first -/
  imageReq : List NRGBA
  /-- `ticker.C` holds a tick -/
  tickReady : Bool
  /-- framebuffer size -/
  fbSize : Point
  /-- `glfw.PollEvents` delivers a framebuffer-size callback -/
  resizeEvent : Bool

/-- The four cases of the `select` statement of `App.loop`. -/
inductive Branch where
  | done
  | grid
  | image
  | tick
deriving DecidableEq, Repr

/-- A case of the `select` can proceed.  A Go `select` runs one of the cases
that can proceed, chosen at random; their textual order gives no priority. -/
def Branch.ready (inp : LoopInput) : Branch → Bool
  | Branch.done => inp.doneReady
  | Branch.grid => inp.gridReq.isSome
  | Branch.image => !inp.imageReq.isEmpty
  | Branch.tick => inp.tickReady

/-- Result of one iteration of `App.loop`. -/
inductive IterResult where
  /-- the loop returns `nil` -/
  | returned (a : App)
  /-- the next iteration starts; `drew` tells whether this one cleared, drew and
  presented a frame -/
  | continued (a : App) (drew : Bool)
  /-- a panic -/
  | panicked (a : App)
  /-- the chosen case cannot proceed -/
  | blocked

/-- One iteration of the `for` of `App.loop` in which the `select` runs the
case `b`. -/
def App.loopIter (a : App) (inp : LoopInput) (b : Branch) : IterResult :=
  if inp.shouldClose then IterResult.returned a
  else if !b.ready inp then IterResult.blocked
  else
    match b with
    | Branch.done => IterResult.returned a
    | Branch.grid => IterResult.continued a false
    | Branch.image =>
      match inp.imageReq with
      | [] => IterResult.blocked
      | img :: _ =>
        match a.addImage img inp.fbSize with
        | some a1 => IterResult.continued a1 false
        | none => IterResult.panicked a
    | Branch.tick =>
      let r : Option App :=
        if a.resized then App.updateCoords { a with resized := false } inp.fbSize
        else some a
      match r with
      | none => IterResult.panicked a
      | some a1 =>
        IterResult.continued { a1 with resized := a1.resized || inp.resizeEvent } true

/-- Method `App.loop` along a schedule: what each iteration observes and which
case its `select` runs.  `none`: the loop has not returned when the schedule
ends. -/
def App.loop (a : App) : List (LoopInput × Branch) → Option (Outcome × App)
  | [] => none
  | (inp, b) :: rest =>
    match a.loopIter inp b with
    | IterResult.returned a1 => some (Outcome.nil, a1)
    | IterResult.continued a1 _ => a1.loop rest
    | IterResult.panicked a1 => some (Outcome.panicked, a1)
    | IterResult.blocked => none

/-- The `for i := len(a.close) - 1; i >= 0; i--` of the deferred function of
`Run`, entered with `i + 1 = k`: runs `a.close[i]` and logs it. -/
def releaseLoop (close : List Callback) : Nat → List Callback → List Callback
  | 0, log => log
  | i + 1, log =>
    match close[i]? with
    | some c => releaseLoop close i (log ++ [c])
    | none => releaseLoop close i log

/-- The deferred function of `App.Run`. -/
def App.runDeferred (a : App) : App :=
  { a with released := releaseLoop a.close a.close.length a.released, close := [] }

/-- Body of `App.Run` after the `defer` statement.  `initElemBuf` and
`startServer` change none of the modelled fields. -/
def App.runBody (a : App) (env : Env) (sched : List (LoopInput × Branch)) :
    Option (Outcome × App) :=
  match a.startListener env with
  | (some e, a) => some (Outcome.err e, a)
  | (none, a) =>
    let a := a.onClose Callback.unlockOSThread
    match env.glfwInit with
    | some e => some (Outcome.err e, a)
    | none =>
      let a := a.onClose Callback.glfwTerminate
      match a.initWindow env with
      | (some e, a) => some (Outcome.err e, a)
      | (none, a) =>
        match a.initGL env with
        | (some e, a) => some (Outcome.err e, a)
        | (none, a) =>
          let a := a.initVertArr
          match a.compileShaders env with
          | (some e, a) => some (Outcome.err e, a)
          | (none, a) =>
            let a := a.initTextures env.genTextures
            match a.initVertBuf env.fbSize with
            | none => some (Outcome.panicked, a)
            | some a => a.loop sched

/-- Method `App.Run`; `none`: it has not returned when the schedule ends. -/
def App.Run (a : App) (env : Env) (sched : List (LoopInput × Branch)) :
    Option (Outcome × App) :=
  let a := { a with n := wrapInt (a.conf.GridSize.X * a.conf.GridSize.Y) }
  if a.n ≤ 0 then some (Outcome.err "invalid width or height", a)
  else (a.runBody env sched).map (fun r => (r.1, r.2.runDeferred))

/-- The release closures that a complete start-up of `Run` registers, in the
order of registration, for the shader handles `vert`, `frag` and the program
handle `prog`. -/
def registrationOrder (vert frag prog : Nat) : List Callback :=
  [Callback.listenerClose, Callback.unlockOSThread, Callback.glfwTerminate,
   Callback.winDestroy, Callback.deleteVertexArrays, Callback.deleteShader vert,
   Callback.deleteShader frag, Callback.deleteProgram prog, Callback.deleteTextures]

/-! ## `main.go`: the server -/

/-- The part of package `protocol` and `image/draw` that `addImages` calls, for
wire images of type `π` and decoded images of type `ι`. -/
structure Codec (π ι : Type) where
  /-- `data.Decode()` -/
  Decode : π → Except String ι
  /-- the type assertion `img.(*image.NRGBA)` -/
  asNRGBA : ι → Option NRGBA
  /-- `image.NewNRGBA(img.Bounds())` filled by `draw.Draw` -/
  drawNRGBA : ι → NRGBA

/-- The value `rgba` that `addImages` sends for a decoded image. -/
def Codec.toNRGBA {π ι : Type} (c : Codec π ι) (img : ι) : NRGBA :=
  match c.asNRGBA img with
  | some rgba => rgba
  | none => c.drawNRGBA img

/-- The images of `arr` that decode, converted, in list order. -/
def Codec.converted {π ι : Type} (c : Codec π ι) (arr : List π) : List NRGBA :=
  arr.filterMap (fun data =>
    match c.Decode data with
    | .ok img => some (c.toNRGBA img)
    | .error _ => none)

/-- Go `server`, by what has been sent on its two channels so far. -/
structure server where
  grid : List Point
  images : List NRGBA

/-- The case that a `select` of `main.go` runs. -/
inductive SelectCase where
  | ctxDone
  | closed
  | send
deriving DecidableEq, Repr

/-- Method `server.addImages`; `sel i` is the case run by the `select` of the
iteration `i`, `ctxErr` is `ctx.Err()`. -/
def server.addImages {π ι : Type} (c : Codec π ι) (ctxErr : String) :
    (Nat → SelectCase) → List π → server → Option String × server
  | _, [], s => (none, s)
  | sel, data :: rest, s =>
    match c.Decode data with
    | .error e => (some e, s)
    | .ok img =>
      let rgba := c.toNRGBA img
      match sel 0 with
      | SelectCase.ctxDone => (some ctxErr, s)
      | SelectCase.closed => (some "server is closed", s)
      | SelectCase.send =>
        server.addImages c ctxErr (fun i => sel (i + 1)) rest
          { s with images := s.images ++ [rgba] }

/-- Go `protocol.SetGridReq`. -/
structure SetGridReq (π : Type) where
  Cols : Int
  Rows : Int
  Images : List π

/-- Method `server.SetGrid`; `gsel` is the case run by its own `select`.  The
result is the error (`none` for a response) and the server. -/
def server.SetGrid {π ι : Type} (c : Codec π ι) (ctxErr : String) (gsel : SelectCase)
    (sel : Nat → SelectCase) (req : SetGridReq π) (s : server) : Option String × server :=
  if req.Cols ≠ 0 ∧ req.Rows ≠ 0 then
    match gsel with
    | SelectCase.ctxDone => (some ctxErr, s)
    | SelectCase.closed => (some "server is closed", s)
    | SelectCase.send =>
      server.addImages c ctxErr sel req.Images
        { s with grid := s.grid ++ [⟨req.Cols, req.Rows⟩] }
  else server.addImages c ctxErr sel req.Images s

/-- Method `server.AddImage`, for the request images `images`. -/
def server.AddImage {π ι : Type} (c : Codec π ι) (ctxErr : String)
    (sel : Nat → SelectCase) (images : List π) (s : server) : Option String × server :=
  server.addImages c ctxErr sel images s

/-! ## Fixtures of the scenarios -/

/-- The command-line defaults of `main.go` with the grid `g`. -/
def configWithGrid (g : Point) : Config :=
  ⟨"0.0.0.0:8181", -1, true, ⟨1280, 800⟩, g⟩

/-- A freshly allocated `w` by `h` image whose pixel bytes all equal `v`. -/
def solidImage (w h v : Nat) : NRGBA :=
  ⟨List.replicate (4 * w * h) v, 4 * w, ⟨⟨0, 0⟩, ⟨w, h⟩⟩⟩

/-- State of the layout scenario: grid 2 by 1, one 400 by 400 image accepted
(so the cursor is at cell 0, which shows the former scratch texture) and no
image for cell 1. -/
def scenarioApp : App :=
  { New (configWithGrid ⟨2, 1⟩) with
    n := 2
    textures := [1, 2, 3]
    showTextures := [3, 2]
    tmpTexture := 1
    curIndex := 0
    imageSizes := [⟨400, 400⟩, ⟨0, 0⟩]
    coordsAndUV := [Quad.zero, Quad.zero] }

/-- State of the layout scenario with an image of width `2 ^ 62` recorded for
cell 0: `maxSize.X * grid.X` is `2 ^ 63`, one more than the largest `int`. -/
def wideImageApp : App :=
  { scenarioApp with imageSizes := [⟨2 ^ 62, 1⟩, ⟨0, 0⟩] }

/-- State with a grid 3 by 1, an image of width `2 ^ 62` recorded for cell 0, a
100 by 300 image for cell 1 and none for cell 2. -/
def wideImageApp3 : App :=
  { New (configWithGrid ⟨3, 1⟩) with
    n := 3
    textures := [1, 2, 3, 4]
    showTextures := [4, 3, 2]
    tmpTexture := 1
    curIndex := 1
    imageSizes := [⟨2 ^ 62, 1⟩, ⟨100, 300⟩, ⟨0, 0⟩]
    coordsAndUV := [Quad.zero, Quad.zero, Quad.zero] }

/-- State with a grid of zero columns and, accordingly, no cell. -/
def zeroColsApp : App := New (configWithGrid ⟨0, 1⟩)

/-- State before `Run` with the grid 2 by 1. -/
def twoCellApp : App := New (configWithGrid ⟨2, 1⟩)

/-- State of `twoCellApp` after the first statement of `Run`. -/
def twoCellStarted : App := { twoCellApp with n := 2 }

/-- Three images `A`, `B`, `C` of different sizes. -/
def imgA : NRGBA := solidImage 4 2 1

/-- Second image of the ring scenario. -/
def imgB : NRGBA := solidImage 2 2 2

/-- Third image of the ring scenario. -/
def imgC : NRGBA := solidImage 1 3 3

/-- State before `Run` with the grid given by the flags `-cols=-1 -rows=-1`. -/
def negativeGridApp : App := New (configWithGrid ⟨-1, -1⟩)

/-- Every external call succeeds; texture names are `1, 2, 3, ..`. -/
def envOk : Env :=
  { listen := none, glfwInit := none, monitors := 1, createWindow := none,
    glInit := none, compileVert := .ok 11, compileFrag := .ok 12, compileProg := .ok 13,
    genTextures := fun i => i + 1, fbSize := ⟨800, 400⟩ }

/-- The fragment shader does not compile. -/
def envFragFails : Env :=
  { envOk with compileFrag := .error "compile error" }

/-- The listener cannot be started. -/
def envListenFails : Env :=
  { envOk with listen := some "address already in use" }

/-- An iteration in which an image is buffered, a resize request waits and the
ticker has ticked. -/
def busyInput : LoopInput :=
  { shouldClose := false, doneReady := false, gridReq := some ⟨3, 3⟩,
    imageReq := [solidImage 4 2 7], tickReady := true, fbSize := ⟨800, 400⟩,
    resizeEvent := false }

/-- An iteration in which the window is asked to close. -/
def closeInput : LoopInput :=
  { busyInput with shouldClose := true }

/-- A codec over lists of bytes: the empty list does not decode, any other list
decodes to a one-pixel-high image holding it. -/
def byteCodec : Codec (List Nat) NRGBA :=
  { Decode := fun data =>
      if data = [] then .error "unexpected EOF"
      else .ok ⟨data, data.length, ⟨⟨0, 0⟩, ⟨data.length, 1⟩⟩⟩
    asNRGBA := fun img => some img
    drawNRGBA := fun img => img }

/-! ## Layout: `calcScale`, the cell loop and the fold of `maxSize` -/

theorem calcScale_degenerate (dst src : Point)
    (h : dst.X = 0 ∨ dst.Y = 0 ∨ src.X = 0 ∨ src.Y = 0) : calcScale dst src = (1, 1) := by
  unfold calcScale
  by_cases h1 : dst.X = 0 ∨ dst.Y = 0
  · simp [h1]
  · have h2 : src.X = 0 ∨ src.Y = 0 := by tauto
    simp [h1, h2]

theorem calcScale_pos (dst src : Point) (hdx : 0 < dst.X) (hdy : 0 < dst.Y)
    (hsx : 0 < src.X) (hsy : 0 < src.Y) :
    0 < (calcScale dst src).1 ∧ (calcScale dst src).1 ≤ 1 ∧
    0 < (calcScale dst src).2 ∧ (calcScale dst src).2 ≤ 1 ∧
    ((calcScale dst src).1 = 1 ∨ (calcScale dst src).2 = 1) ∧
    ((dst.X : ℚ) * (calcScale dst src).1) / ((dst.Y : ℚ) * (calcScale dst src).2)
      = (src.X : ℚ) / (src.Y : ℚ) := by
  have a1 : (0 : ℚ) < dst.X := by exact_mod_cast hdx
  have a2 : (0 : ℚ) < dst.Y := by exact_mod_cast hdy
  have a3 : (0 : ℚ) < src.X := by exact_mod_cast hsx
  have a4 : (0 : ℚ) < src.Y := by exact_mod_cast hsy
  have hd : (0 : ℚ) < (dst.X : ℚ) / dst.Y := div_pos a1 a2
  have hs : (0 : ℚ) < (src.X : ℚ) / src.Y := div_pos a3 a4
  have n1 : dst.X ≠ 0 := by omega
  have n2 : dst.Y ≠ 0 := by omega
  have n3 : src.X ≠ 0 := by omega
  have n4 : src.Y ≠ 0 := by omega
  unfold calcScale
  simp only [n1, n2, n3, n4, or_self, if_false]
  by_cases hle : (dst.X : ℚ) / dst.Y ≤ (src.X : ℚ) / src.Y
  · simp only [hle, if_true]
    refine ⟨one_pos, le_refl _, div_pos hd hs, (div_le_one hs).2 hle, Or.inl trivial, ?_⟩
    field_simp
    ring
  · simp only [hle, if_false]
    have hlt : (src.X : ℚ) / src.Y < (dst.X : ℚ) / dst.Y := lt_of_not_le hle
    refine ⟨div_pos hs hd, (div_le_one hd).2 hlt.le, one_pos, le_refl _, Or.inr trivial, ?_⟩
    field_simp
    ring

theorem calcScale_range (dst src : Point) (hdx : 0 ≤ dst.X) (hdy : 0 ≤ dst.Y)
    (hsx : 0 ≤ src.X) (hsy : 0 ≤ src.Y) :
    0 < (calcScale dst src).1 ∧ (calcScale dst src).1 ≤ 1 ∧
    0 < (calcScale dst src).2 ∧ (calcScale dst src).2 ≤ 1 := by
  by_cases h : dst.X = 0 ∨ dst.Y = 0 ∨ src.X = 0 ∨ src.Y = 0
  · rw [calcScale_degenerate dst src h]; norm_num
  · have := calcScale_pos dst src (by omega) (by omega) (by omega) (by omega)
    tauto

theorem wrapInt_of_range (x : Int) (h1 : -2 ^ 63 ≤ x) (h2 : x < 2 ^ 63) : wrapInt x = x := by
  unfold wrapInt; omega

theorem cellQuad_isSome (grid cellSize : Point) (ox oy gfx gfy : ℚ) (i : Nat) (sz : Point)
    (hg : grid.X ≠ 0) : (cellQuad grid cellSize ox oy gfx gfy i sz).isSome := by
  simp [cellQuad, goDiv, goMod, hg]

/-- The quad of the cell `i` when no `int` of its computation overflows. -/
theorem cellQuad_eq (grid cellSize : Point) (ox oy gfx gfy : ℚ) (i : Nat) (sz : Point)
    (hc : 0 < grid.X) (hXb : grid.X < 2 ^ 63) (hib : (i : Int) + 1 < 2 ^ 63) :
    cellQuad grid cellSize ox oy gfx gfy i sz = some
      [ ⟨(ox + ((Int.tmod i grid.X : Int) : ℚ) * gfx - 1
            + (1 - (calcScale cellSize sz).1) * gfx / 2,
          oy + ((Int.tdiv i grid.X : Int) : ℚ) * gfy - 1
            + (1 - (calcScale cellSize sz).2) * gfy / 2), (0, 0)⟩,
        ⟨(ox + (((Int.tmod i grid.X : Int) : ℚ) + 1) * gfx - 1
            - (1 - (calcScale cellSize sz).1) * gfx / 2,
          oy + ((Int.tdiv i grid.X : Int) : ℚ) * gfy - 1
            + (1 - (calcScale cellSize sz).2) * gfy / 2), (1, 0)⟩,
        ⟨(ox + ((Int.tmod i grid.X : Int) : ℚ) * gfx - 1
            + (1 - (calcScale cellSize sz).1) * gfx / 2,
          oy + (((Int.tdiv i grid.X : Int) : ℚ) + 1) * gfy - 1
            - (1 - (calcScale cellSize sz).2) * gfy / 2), (0, 1)⟩,
        ⟨(ox + (((Int.tmod i grid.X : Int) : ℚ) + 1) * gfx - 1
            - (1 - (calcScale cellSize sz).1) * gfx / 2,
          oy + (((Int.tdiv i grid.X : Int) : ℚ) + 1) * gfy - 1
            - (1 - (calcScale cellSize sz).2) * gfy / 2), (1, 1)⟩ ] := by
  have hg : grid.X ≠ 0 := by omega
  have hi0 : (0 : Int) ≤ (i : Int) := Int.ofNat_nonneg _
  have ht0 : 0 ≤ Int.tmod i grid.X := Int.tmod_nonneg _ hi0
  have ht1 : Int.tmod i grid.X < grid.X := Int.tmod_lt_of_pos _ hc
  have hd0 : 0 ≤ Int.tdiv i grid.X := Int.tdiv_nonneg hi0 hc.le
  have hd1 : Int.tdiv i grid.X ≤ i := by
    rw [Int.tdiv_eq_ediv hi0 hc.le]
    exact Int.ediv_le_self _ hi0
  have w1 : wrapInt (Int.tdiv i grid.X) = Int.tdiv i grid.X :=
    wrapInt_of_range _ (by omega) (by omega)
  have w2 : wrapInt (Int.tmod i grid.X) = Int.tmod i grid.X :=
    wrapInt_of_range _ (by omega) (by omega)
  have w3 : wrapInt (Int.tmod i grid.X + 1) = Int.tmod i grid.X + 1 :=
    wrapInt_of_range _ (by omega) (by omega)
  have w4 : wrapInt (Int.tdiv i grid.X + 1) = Int.tdiv i grid.X + 1 :=
    wrapInt_of_range _ (by omega) (by omega)
  simp [cellQuad, goDiv, goMod, hg, List.range_succ, cellCorner, shrinkCorner, calcOffset,
    w1, w2, w3, w4]

theorem cellsLoop_some (f : Nat → Point → Option Quad) (hf : ∀ i sz, (f i sz).isSome) :
    ∀ (sizes : List Point) (start : Nat) (coords : List Quad),
      start + sizes.length ≤ coords.length →
      ∃ out, cellsLoop f start sizes coords = some out ∧ out.length = coords.length ∧
        (∀ j, j < sizes.length → out[start + j]? = f (start + j) (sizes.getD j ⟨0, 0⟩)) ∧
        (∀ j, j < start → out[j]? = coords[j]?) := by
  intro sizes
  induction sizes with
  | nil =>
    intro start coords _
    exact ⟨coords, rfl, rfl, by simp, fun _ _ => rfl⟩
  | cons sz rest ih =>
    intro start coords hlen
    simp only [List.length_cons] at hlen
    have hlt : start < coords.length := by omega
    obtain ⟨q, hq⟩ := Option.isSome_iff_exists.1 (hf start sz)
    obtain ⟨out, h1, h2, h3, h4⟩ := ih (start + 1) (coords.set start q)
      (by simp only [List.length_set]; omega)
    refine ⟨out, ?_, ?_, ?_, ?_⟩
    · simp only [cellsLoop, hlt, if_true, hq]
      exact h1
    · simpa using h2
    · intro j hj
      cases j with
      | zero =>
        have := h4 start (Nat.lt_succ_self _)
        simp only [Nat.add_zero, List.getD_cons_zero]
        rw [this, hq]
        simp [List.getElem?_set, hlt]
      | succ j =>
        simp only [List.length_cons] at hj
        have := h3 j (by omega)
        simp only [List.getD_cons_succ]
        have e : start + (j + 1) = start + 1 + j := by omega
        rw [e]
        exact this
    · intro j hj
      rw [h4 j (by omega)]
      simp [List.getElem?_set]
      omega

theorem layout_eq (grid : Point) (sizes : List Point) (coords : List Quad) (screen : Point)
    (hx : grid.X ≠ 0) (hy : grid.Y ≠ 0) :
    layout grid sizes coords screen =
      cellsLoop (cellQuad grid (layoutCellSize grid sizes screen)
          (calcOffset (layoutScreenScale grid sizes screen).1
            (layoutScreenScale grid sizes screen).2 2 2).1
          (calcOffset (layoutScreenScale grid sizes screen).1
            (layoutScreenScale grid sizes screen).2 2 2).2
          (2 * (layoutScreenScale grid sizes screen).1 / (grid.X : ℚ))
          (2 * (layoutScreenScale grid sizes screen).2 / (grid.Y : ℚ)))
        0 sizes coords := by
  unfold layout layoutCellSize layoutScreenScale layoutIdealSize layoutMaxSize
  by_cases h0 : sizes.foldl maxSizeStep ⟨0, 0⟩ = ⟨0, 0⟩
  · simp [h0, goDiv, hx, hy]
  · simp [h0, goDiv, hx, hy]

/-- Each component of the folded `maxSize` is the start value or a component of
one of the sizes. -/
theorem maxSizeStep_pick (pX pY : Int → Prop) (m sz : Point)
    (hm : pX m.X ∧ pY m.Y) (hs : pX sz.X ∧ pY sz.Y) :
    pX (maxSizeStep m sz).X ∧ pY (maxSizeStep m sz).Y := by
  unfold maxSizeStep
  by_cases h1 : sz = ⟨0, 0⟩
  · simp only [h1, if_true]; exact hm
  · by_cases h2 : m.X ≤ 0 ∨ m.X < sz.X <;> by_cases h3 : m.Y ≤ 0 ∨ m.Y < sz.Y <;>
      simp only [h1, h2, h3, if_true, if_false]
    · exact hs
    · exact ⟨hs.1, hm.2⟩
    · exact ⟨hm.1, hs.2⟩
    · exact hm

theorem foldl_maxSizeStep_pick (pX pY : Int → Prop) (sizes : List Point) :
    ∀ (m : Point), (pX m.X ∧ pY m.Y) → (∀ sz ∈ sizes, pX sz.X ∧ pY sz.Y) →
      pX (sizes.foldl maxSizeStep m).X ∧ pY (sizes.foldl maxSizeStep m).Y := by
  induction sizes with
  | nil => intro m hm _; exact hm
  | cons sz rest ih =>
    intro m hm hs
    simp only [List.foldl_cons]
    exact ih _ (maxSizeStep_pick pX pY m sz hm (hs sz (List.mem_cons_self _ _)))
      (fun s h => hs s (List.mem_cons_of_mem _ h))

/-- Without overflow `idealSize` is the exact product and `cellSize` is
`maxSize` again. -/
theorem layout_sizes_exact (grid : Point) (sizes : List Point) (screen : Point)
    (hc : 0 < grid.X) (hr : 0 < grid.Y)
    (hm0 : 0 ≤ (layoutMaxSize grid sizes screen).X ∧ 0 ≤ (layoutMaxSize grid sizes screen).Y)
    (hmb : (layoutMaxSize grid sizes screen).X * grid.X < 2 ^ 63 ∧
      (layoutMaxSize grid sizes screen).Y * grid.Y < 2 ^ 63) :
    layoutIdealSize grid sizes screen =
      ⟨(layoutMaxSize grid sizes screen).X * grid.X,
       (layoutMaxSize grid sizes screen).Y * grid.Y⟩ ∧
    layoutCellSize grid sizes screen = layoutMaxSize grid sizes screen := by
  have p1 : 0 ≤ (layoutMaxSize grid sizes screen).X * grid.X := mul_nonneg hm0.1 hc.le
  have p2 : 0 ≤ (layoutMaxSize grid sizes screen).Y * grid.Y := mul_nonneg hm0.2 hr.le
  have e1 := wrapInt_of_range _ (by omega) hmb.1
  have e2 := wrapInt_of_range _ (by omega) hmb.2
  have hid : layoutIdealSize grid sizes screen =
      ⟨(layoutMaxSize grid sizes screen).X * grid.X,
       (layoutMaxSize grid sizes screen).Y * grid.Y⟩ := by
    unfold layoutIdealSize
    rw [e1, e2]
  refine ⟨hid, ?_⟩
  unfold layoutCellSize
  rw [hid]
  simp only
  rw [Int.mul_tdiv_cancel _ (by omega : grid.X ≠ 0), Int.mul_tdiv_cancel _ (by omega : grid.Y ≠ 0)]
  have q1 : (layoutMaxSize grid sizes screen).X ≤ (layoutMaxSize grid sizes screen).X * grid.X :=
    le_mul_of_one_le_right hm0.1 (by omega)
  have q2 : (layoutMaxSize grid sizes screen).Y ≤ (layoutMaxSize grid sizes screen).Y * grid.Y :=
    le_mul_of_one_le_right hm0.2 (by omega)
  rw [wrapInt_of_range _ (by omega) (by omega), wrapInt_of_range _ (by omega) (by omega)]

theorem maxSizeStep_nonneg (m sz : Point) (hm : 0 ≤ m.X ∧ 0 ≤ m.Y) (hs : 0 ≤ sz.X ∧ 0 ≤ sz.Y) :
    0 ≤ (maxSizeStep m sz).X ∧ 0 ≤ (maxSizeStep m sz).Y := by
  unfold maxSizeStep
  by_cases h1 : sz = ⟨0, 0⟩
  · simp only [h1, if_true]; omega
  · by_cases h2 : m.X ≤ 0 ∨ m.X < sz.X <;> by_cases h3 : m.Y ≤ 0 ∨ m.Y < sz.Y <;>
      simp only [h1, h2, h3, if_true, if_false] <;> omega

theorem foldl_maxSizeStep_nonneg (sizes : List Point) :
    ∀ (m : Point), (0 ≤ m.X ∧ 0 ≤ m.Y) → (∀ sz ∈ sizes, 0 ≤ sz.X ∧ 0 ≤ sz.Y) →
      0 ≤ (sizes.foldl maxSizeStep m).X ∧ 0 ≤ (sizes.foldl maxSizeStep m).Y := by
  induction sizes with
  | nil => intro m hm _; exact hm
  | cons sz rest ih =>
    intro m hm hs
    simp only [List.foldl_cons]
    exact ih _ (maxSizeStep_nonneg m sz hm (hs sz (List.mem_cons_self _ _)))
      (fun s h => hs s (List.mem_cons_of_mem _ h))

theorem maxSizeStep_pos_keep (m sz : Point) (hm : 0 < m.X ∧ 0 < m.Y) :
    0 < (maxSizeStep m sz).X ∧ 0 < (maxSizeStep m sz).Y := by
  unfold maxSizeStep
  by_cases h1 : sz = ⟨0, 0⟩
  · simp only [h1, if_true]; omega
  · by_cases h2 : m.X ≤ 0 ∨ m.X < sz.X <;> by_cases h3 : m.Y ≤ 0 ∨ m.Y < sz.Y <;>
      simp only [h1, h2, h3, if_true, if_false] <;> omega

theorem maxSizeStep_pos_new (m sz : Point) (hs : 0 < sz.X ∧ 0 < sz.Y) :
    0 < (maxSizeStep m sz).X ∧ 0 < (maxSizeStep m sz).Y := by
  have hne : sz ≠ ⟨0, 0⟩ := by
    intro h; rw [h] at hs; simp at hs
  unfold maxSizeStep
  by_cases h1 : sz = ⟨0, 0⟩
  · exact absurd h1 hne
  · by_cases h2 : m.X ≤ 0 ∨ m.X < sz.X <;> by_cases h3 : m.Y ≤ 0 ∨ m.Y < sz.Y <;>
      simp only [h1, h2, h3, if_true, if_false] <;> omega

theorem foldl_maxSizeStep_pos_keep (sizes : List Point) :
    ∀ (m : Point), (0 < m.X ∧ 0 < m.Y) →
      0 < (sizes.foldl maxSizeStep m).X ∧ 0 < (sizes.foldl maxSizeStep m).Y := by
  induction sizes with
  | nil => intro m hm; exact hm
  | cons sz rest ih =>
    intro m hm
    simp only [List.foldl_cons]
    exact ih _ (maxSizeStep_pos_keep m sz hm)

theorem foldl_maxSizeStep_pos (sizes : List Point) :
    ∀ (m : Point) (sz : Point), sz ∈ sizes → (0 < sz.X ∧ 0 < sz.Y) →
      0 < (sizes.foldl maxSizeStep m).X ∧ 0 < (sizes.foldl maxSizeStep m).Y := by
  induction sizes with
  | nil => intro m sz h; simp at h
  | cons s rest ih =>
    intro m sz hmem hs
    simp only [List.foldl_cons]
    rcases List.mem_cons.1 hmem with h | h
    · subst h
      exact foldl_maxSizeStep_pos_keep rest _ (maxSizeStep_pos_new m sz hs)
    · exact ih _ sz h hs


/-- One axis of a cell quad: with screen scale `s`, grid step `t = 2 s / c`,
cell coordinate `k` and inward shift `d`, both edges stay in `[-1, 1]`. -/
theorem axis_bounds (s t c k d : ℚ) (hs1 : s ≤ 1) (htc : t * c = 2 * s)
    (ht0 : 0 ≤ t) (hk0 : 0 ≤ k) (hk1 : k + 1 ≤ c) (hd0 : 0 ≤ d) (hd1 : d ≤ t / 2) :
    (-1 ≤ (1 - s) * 2 / 2 + k * t - 1 + d ∧ (1 - s) * 2 / 2 + k * t - 1 + d ≤ 1) ∧
    (-1 ≤ (1 - s) * 2 / 2 + (k + 1) * t - 1 - d ∧ (1 - s) * 2 / 2 + (k + 1) * t - 1 - d ≤ 1) := by
  have h1 : 0 ≤ k * t := mul_nonneg hk0 ht0
  have h2 : (k + 1) * t ≤ c * t := mul_le_mul_of_nonneg_right hk1 ht0
  have h3 : c * t = 2 * s := by rw [mul_comm]; exact htc
  have h4 : (k + 1) * t = k * t + t := by ring
  refine ⟨⟨?_, ?_⟩, ?_, ?_⟩ <;> linarith

theorem shift_range (sc t : ℚ) (h0 : 0 < sc) (h1 : sc ≤ 1) (ht : 0 ≤ t) :
    0 ≤ (1 - sc) * t / 2 ∧ (1 - sc) * t / 2 ≤ t / 2 := by
  have : 0 ≤ (1 - sc) * t := mul_nonneg (by linarith) ht
  have : sc * t ≥ 0 := mul_nonneg h0.le ht
  constructor <;> nlinarith

theorem layoutMaxSize_bounds (grid : Point) (sizes : List Point) (screen : Point)
    (hc : 0 < grid.X) (hr : 0 < grid.Y) (hsx : 0 ≤ screen.X) (hsy : 0 ≤ screen.Y)
    (hsxb : screen.X < 2 ^ 63) (hsyb : screen.Y < 2 ^ 63)
    (hsz : ∀ sz ∈ sizes, 0 ≤ sz.X ∧ 0 ≤ sz.Y)
    (hszb : ∀ sz ∈ sizes, sz.X * grid.X < 2 ^ 63 ∧ sz.Y * grid.Y < 2 ^ 63) :
    (0 ≤ (layoutMaxSize grid sizes screen).X ∧ 0 ≤ (layoutMaxSize grid sizes screen).Y) ∧
    ((layoutMaxSize grid sizes screen).X * grid.X < 2 ^ 63 ∧
      (layoutMaxSize grid sizes screen).Y * grid.Y < 2 ^ 63) := by
  unfold layoutMaxSize
  split_ifs
  · have a1 : 0 ≤ Int.tdiv screen.X grid.X := Int.tdiv_nonneg hsx hc.le
    have a2 : 0 ≤ Int.tdiv screen.Y grid.Y := Int.tdiv_nonneg hsy hr.le
    have b1 : Int.tdiv screen.X grid.X * grid.X ≤ screen.X := by
      rw [Int.tdiv_eq_ediv hsx hc.le]; exact Int.ediv_mul_le _ (by omega)
    have b2 : Int.tdiv screen.Y grid.Y * grid.Y ≤ screen.Y := by
      rw [Int.tdiv_eq_ediv hsy hr.le]; exact Int.ediv_mul_le _ (by omega)
    have c1 : Int.tdiv screen.X grid.X ≤ screen.X := by
      rw [Int.tdiv_eq_ediv hsx hc.le]; exact Int.ediv_le_self _ hsx
    have c2 : Int.tdiv screen.Y grid.Y ≤ screen.Y := by
      rw [Int.tdiv_eq_ediv hsy hr.le]; exact Int.ediv_le_self _ hsy
    simp only
    rw [wrapInt_of_range _ (by omega) (by omega), wrapInt_of_range _ (by omega) (by omega)]
    exact ⟨⟨a1, a2⟩, by omega, by omega⟩
  · exact ⟨foldl_maxSizeStep_nonneg sizes _ ⟨le_refl _, le_refl _⟩ hsz,
      foldl_maxSizeStep_pick (fun x => x * grid.X < 2 ^ 63) (fun y => y * grid.Y < 2 ^ 63)
        sizes ⟨0, 0⟩ ⟨by norm_num, by norm_num⟩ hszb⟩

theorem layout_corners_in_bounds (grid : Point) (sizes : List Point) (coords : List Quad)
    (screen : Point) (hc : 0 < grid.X) (hr : 0 < grid.Y)
    (hsx : 0 ≤ screen.X) (hsy : 0 ≤ screen.Y)
    (hn : (sizes.length : Int) = grid.X * grid.Y)
    (hsz : ∀ sz ∈ sizes, 0 ≤ sz.X ∧ 0 ≤ sz.Y)
    (hcoords : coords.length = sizes.length)
    (hnb : (sizes.length : Int) < 2 ^ 63)
    (hsxb : screen.X < 2 ^ 63) (hsyb : screen.Y < 2 ^ 63)
    (hszb : ∀ sz ∈ sizes, sz.X * grid.X < 2 ^ 63 ∧ sz.Y * grid.Y < 2 ^ 63) :
    ∃ out, layout grid sizes coords screen = some out ∧ out.length = sizes.length ∧
      ∀ i, i < sizes.length → ∃ q, out[i]? = some q ∧ q.length = 4 ∧
        ∀ c ∈ q, -1 ≤ c.Pos.1 ∧ c.Pos.1 ≤ 1 ∧ -1 ≤ c.Pos.2 ∧ c.Pos.2 ≤ 1 := by
  have hx : grid.X ≠ 0 := by omega
  have hy : grid.Y ≠ 0 := by omega
  rw [layout_eq grid sizes coords screen hx hy]
  have hf : ∀ cs ox oy gx gy i sz, (cellQuad grid cs ox oy gx gy i sz).isSome :=
    fun cs ox oy gx gy i sz => cellQuad_isSome grid cs ox oy gx gy i sz hx
  have hXb : grid.X < 2 ^ 63 := by
    have : grid.X ≤ grid.X * grid.Y := le_mul_of_one_le_right hc.le (by omega)
    omega
  obtain ⟨out, h1, h2, h3, -⟩ := cellsLoop_some _ (hf _ _ _ _ _) sizes 0 coords (by omega)
  refine ⟨out, h1, by omega, ?_⟩
  intro i hi
  have hq := h3 i hi
  have hib : (i : Int) + 1 < 2 ^ 63 := by
    have : (i : Int) < sizes.length := by exact_mod_cast hi
    omega
  obtain ⟨hm, hmb⟩ := layoutMaxSize_bounds grid sizes screen hc hr hsx hsy hsxb hsyb hsz hszb
  obtain ⟨hid, hcell⟩ := layout_sizes_exact grid sizes screen hc hr hm hmb
  rw [Nat.zero_add, cellQuad_eq _ _ _ _ _ _ _ _ hc hXb hib, hcell] at hq
  refine ⟨_, hq, rfl, ?_⟩
  -- the quantities of the layout
  have hsc := calcScale_range screen
    ⟨(layoutMaxSize grid sizes screen).X * grid.X, (layoutMaxSize grid sizes screen).Y * grid.Y⟩
    hsx hsy (mul_nonneg hm.1 hc.le) (mul_nonneg hm.2 hr.le)
  have hszi : 0 ≤ (sizes.getD i ⟨0, 0⟩).X ∧ 0 ≤ (sizes.getD i ⟨0, 0⟩).Y := by
    rw [List.getD_eq_getElem _ _ hi]
    exact hsz _ (List.getElem_mem _)
  have hcs := calcScale_range (layoutMaxSize grid sizes screen) (sizes.getD i ⟨0, 0⟩)
    hm.1 hm.2 hszi.1 hszi.2
  have hcq : (0 : ℚ) < grid.X := by exact_mod_cast hc
  have hrq : (0 : ℚ) < grid.Y := by exact_mod_cast hr
  have hi0 : (0 : Int) ≤ (i : Int) := Int.ofNat_nonneg _
  have hxi0 : (0 : ℚ) ≤ ((Int.tmod i grid.X : Int) : ℚ) := by
    exact_mod_cast Int.tmod_nonneg _ hi0
  have hxi1 : ((Int.tmod i grid.X : Int) : ℚ) + 1 ≤ grid.X := by
    have := Int.tmod_lt_of_pos (i : Int) hc
    exact_mod_cast this
  have hyi0 : (0 : ℚ) ≤ ((Int.tdiv i grid.X : Int) : ℚ) := by
    exact_mod_cast Int.tdiv_nonneg hi0 hc.le
  have hyi1 : ((Int.tdiv i grid.X : Int) : ℚ) + 1 ≤ grid.Y := by
    have hlt : (i : Int) < grid.Y * grid.X := by
      have : (i : Int) < sizes.length := by exact_mod_cast hi
      rw [hn, mul_comm] at this
      exact this
    have := Int.ediv_lt_of_lt_mul hc hlt
    rw [← Int.tdiv_eq_ediv hi0 hc.le] at this
    exact_mod_cast this
  unfold layoutScreenScale at *
  rw [hid] at *
  set sw := (calcScale screen
    ⟨(layoutMaxSize grid sizes screen).X * grid.X,
     (layoutMaxSize grid sizes screen).Y * grid.Y⟩).1 with hsw
  set sh := (calcScale screen
    ⟨(layoutMaxSize grid sizes screen).X * grid.X,
     (layoutMaxSize grid sizes screen).Y * grid.Y⟩).2 with hsh
  have htx : 2 * sw / (grid.X : ℚ) * grid.X = 2 * sw := by field_simp
  have hty : 2 * sh / (grid.Y : ℚ) * grid.Y = 2 * sh := by field_simp
  have htx0 : 0 ≤ 2 * sw / (grid.X : ℚ) := by have := hsc.1; positivity
  have hty0 : 0 ≤ 2 * sh / (grid.Y : ℚ) := by have := hsc.2.2.1; positivity
  have hdx := shift_range _ _ hcs.1 hcs.2.1 htx0
  have hdy := shift_range _ _ hcs.2.2.1 hcs.2.2.2 hty0
  have ax := axis_bounds sw _ _ _ _ hsc.2.1 htx htx0 hxi0 hxi1 hdx.1 hdx.2
  have ay := axis_bounds sh _ _ _ _ hsc.2.2.2 hty hty0 hyi0 hyi1 hdy.1 hdy.2
  intro c hcmem
  simp only [List.mem_cons, List.mem_singleton, List.not_mem_nil, or_false] at hcmem
  rcases hcmem with h | h | h | h <;> subst h
  · exact ⟨ax.1.1, ax.1.2, ay.1.1, ay.1.2⟩
  · exact ⟨ax.2.1, ax.2.2, ay.1.1, ay.1.2⟩
  · exact ⟨ax.1.1, ax.1.2, ay.2.1, ay.2.2⟩
  · exact ⟨ax.2.1, ax.2.2, ay.2.1, ay.2.2⟩


theorem layoutMaxSize_pos (grid : Point) (sizes : List Point) (screen : Point)
    (sz : Point) (hmem : sz ∈ sizes) (hpos : 0 < sz.X ∧ 0 < sz.Y) :
    0 < (layoutMaxSize grid sizes screen).X ∧ 0 < (layoutMaxSize grid sizes screen).Y := by
  have h := foldl_maxSizeStep_pos sizes ⟨0, 0⟩ sz hmem hpos
  have hne : sizes.foldl maxSizeStep ⟨0, 0⟩ ≠ ⟨0, 0⟩ := by
    intro h0; rw [h0] at h; simp at h
  unfold layoutMaxSize
  rw [if_neg hne]
  exact h

theorem layout_aspect (grid : Point) (sizes : List Point) (coords : List Quad)
    (screen : Point) (i : Nat) (w h : Int)
    (hc : 0 < grid.X) (hr : 0 < grid.Y) (hW : 0 < screen.X) (hH : 0 < screen.Y)
    (hi : sizes[i]? = some ⟨w, h⟩) (hw : 0 < w) (hh : 0 < h)
    (hlen : sizes.length ≤ coords.length)
    (hnb : (sizes.length : Int) < 2 ^ 63)
    (hszb : ∀ sz ∈ sizes, sz.X * grid.X < 2 ^ 63 ∧ sz.Y * grid.Y < 2 ^ 63) :
    ∃ out c0 c1 c2 c3, layout grid sizes coords screen = some out ∧
      out[i]? = some [c0, c1, c2, c3] ∧
      c0.Pos.2 = c1.Pos.2 ∧ c2.Pos.2 = c3.Pos.2 ∧ c0.Pos.1 = c2.Pos.1 ∧ c1.Pos.1 = c3.Pos.1 ∧
      0 < c1.Pos.1 - c0.Pos.1 ∧ 0 < c2.Pos.2 - c0.Pos.2 ∧
      ((c1.Pos.1 - c0.Pos.1) * (screen.X : ℚ) / 2) / ((c2.Pos.2 - c0.Pos.2) * (screen.Y : ℚ) / 2)
        = (w : ℚ) / (h : ℚ) := by
  have hx : grid.X ≠ 0 := by omega
  have hy : grid.Y ≠ 0 := by omega
  have hil : i < sizes.length := by
    by_contra hcon
    rw [List.getElem?_eq_none (by omega)] at hi
    exact Option.noConfusion hi
  have hget : sizes.getD i ⟨0, 0⟩ = ⟨w, h⟩ := by
    rw [List.getD_eq_getElem?_getD, hi]; rfl
  have hmem : (⟨w, h⟩ : Point) ∈ sizes := List.mem_iff_getElem?.2 ⟨i, hi⟩
  have hf : ∀ cs ox oy gx gy i sz, (cellQuad grid cs ox oy gx gy i sz).isSome :=
    fun cs ox oy gx gy i sz => cellQuad_isSome grid cs ox oy gx gy i sz hx
  have hXb : grid.X < 2 ^ 63 := by
    have h1 := (hszb _ hmem).1
    have h2 : grid.X ≤ w * grid.X := le_mul_of_one_le_left hc.le (by omega)
    have h3 : (⟨w, h⟩ : Point).X = w := rfl
    rw [h3] at h1
    omega
  have hib : (i : Int) + 1 < 2 ^ 63 := by
    have : (i : Int) < sizes.length := by exact_mod_cast hil
    omega
  have hm := layoutMaxSize_pos grid sizes screen ⟨w, h⟩ hmem ⟨hw, hh⟩
  have hmb : (layoutMaxSize grid sizes screen).X * grid.X < 2 ^ 63 ∧
      (layoutMaxSize grid sizes screen).Y * grid.Y < 2 ^ 63 := by
    have hne : sizes.foldl maxSizeStep ⟨0, 0⟩ ≠ ⟨0, 0⟩ := by
      intro h0
      have := foldl_maxSizeStep_pos sizes ⟨0, 0⟩ ⟨w, h⟩ hmem ⟨hw, hh⟩
      rw [h0] at this; simp at this
    unfold layoutMaxSize
    rw [if_neg hne]
    exact foldl_maxSizeStep_pick (fun x => x * grid.X < 2 ^ 63) (fun y => y * grid.Y < 2 ^ 63)
      sizes ⟨0, 0⟩ ⟨by norm_num, by norm_num⟩ hszb
  obtain ⟨hid, hcell⟩ := layout_sizes_exact grid sizes screen hc hr ⟨hm.1.le, hm.2.le⟩ hmb
  obtain ⟨out, h1, -, h3, -⟩ := cellsLoop_some _ (hf _ _ _ _ _) sizes 0 coords (by omega)
  have hgoal : layout grid sizes coords screen = some out := by
    rw [layout_eq grid sizes coords screen hx hy]; exact h1
  have hq := h3 i hil
  rw [Nat.zero_add, cellQuad_eq _ _ _ _ _ _ _ _ hc hXb hib, hget, hcell] at hq
  refine ⟨out, _, _, _, _, hgoal, hq, rfl, rfl, rfl, rfl, ?_⟩
  have hsc := calcScale_pos screen
    ⟨(layoutMaxSize grid sizes screen).X * grid.X, (layoutMaxSize grid sizes screen).Y * grid.Y⟩
    hW hH (mul_pos hm.1 hc) (mul_pos hm.2 hr)
  have hcs := calcScale_pos (layoutMaxSize grid sizes screen) ⟨w, h⟩ hm.1 hm.2 hw hh
  unfold layoutScreenScale
  rw [hid]
  set sw := (calcScale screen
    ⟨(layoutMaxSize grid sizes screen).X * grid.X,
     (layoutMaxSize grid sizes screen).Y * grid.Y⟩).1 with hsw
  set sh := (calcScale screen
    ⟨(layoutMaxSize grid sizes screen).X * grid.X,
     (layoutMaxSize grid sizes screen).Y * grid.Y⟩).2 with hsh
  set cw := (calcScale (layoutMaxSize grid sizes screen) ⟨w, h⟩).1 with hcw
  set ch := (calcScale (layoutMaxSize grid sizes screen) ⟨w, h⟩).2 with hch
  set mX := (layoutMaxSize grid sizes screen).X with hmX
  set mY := (layoutMaxSize grid sizes screen).Y with hmY
  obtain ⟨sw0, -, sh0, -, -, hratio⟩ := hsc
  obtain ⟨cw0, -, ch0, -, -, hcratio⟩ := hcs
  have qc : (0 : ℚ) < grid.X := by exact_mod_cast hc
  have qr : (0 : ℚ) < grid.Y := by exact_mod_cast hr
  have qW : (0 : ℚ) < screen.X := by exact_mod_cast hW
  have qH : (0 : ℚ) < screen.Y := by exact_mod_cast hH
  have qw : (0 : ℚ) < w := by exact_mod_cast hw
  have qh : (0 : ℚ) < h := by exact_mod_cast hh
  have qmX : (0 : ℚ) < mX := by exact_mod_cast hm.1
  have qmY : (0 : ℚ) < mY := by exact_mod_cast hm.2
  have ewidth : ∀ (ox k t s : ℚ),
      (ox + (k + 1) * t - 1 - (1 - s) * t / 2) - (ox + k * t - 1 + (1 - s) * t / 2) = t * s := by
    intro ox k t s; ring
  simp only [ewidth]
  push_cast at hratio
  rw [div_eq_div_iff (by positivity) (by positivity)] at hratio hcratio
  refine ⟨by positivity, by positivity, ?_⟩
  rw [div_eq_div_iff (by positivity) (by positivity)]
  have key : (sw * cw * (screen.X : ℚ) * h * grid.Y) * mY
      = ((w : ℚ) * sh * ch * screen.Y * grid.X) * mY := by
    linear_combination (cw * (h : ℚ)) * hratio + ((grid.X : ℚ) * screen.Y * sh) * hcratio
  have key2 := mul_right_cancel₀ qmY.ne' key
  field_simp
  linear_combination 4 * key2

/-! ## Slot registry: `initTextures`, `addImage` -/

theorem layout_some (grid : Point) (sizes : List Point) (coords : List Quad) (screen : Point)
    (hx : grid.X ≠ 0) (hy : grid.Y ≠ 0) (hlen : sizes.length ≤ coords.length) :
    ∃ out, layout grid sizes coords screen = some out ∧ out.length = coords.length := by
  rw [layout_eq grid sizes coords screen hx hy]
  have hf : ∀ cs ox oy gx gy i sz, (cellQuad grid cs ox oy gx gy i sz).isSome :=
    fun cs ox oy gx gy i sz => cellQuad_isSome grid cs ox oy gx gy i sz hx
  obtain ⟨out, h1, h2, -, -⟩ := cellsLoop_some _ (hf _ _ _ _ _) sizes 0 coords (by omega)
  exact ⟨out, h1, h2⟩

theorem wrapInt_zero : wrapInt 0 = 0 := by decide

theorem grid_ne_zero_of_n (g : Point) (h : 1 ≤ wrapInt (g.X * g.Y)) : g.X ≠ 0 ∧ g.Y ≠ 0 := by
  constructor
  · intro h0; rw [h0, zero_mul, wrapInt_zero] at h; omega
  · intro h0; rw [h0, mul_zero, wrapInt_zero] at h; omega

theorem tmod_cursor (c n : Int) (hn : 1 ≤ n) (h1 : -1 ≤ c) :
    0 ≤ Int.tmod (c + 1) n ∧ Int.tmod (c + 1) n < n ∧
    Int.tmod (c + 1) n = (c + 1) % n := by
  have h0 : 0 ≤ c + 1 := by omega
  rw [Int.tmod_eq_emod h0 (by omega)]
  exact ⟨Int.emod_nonneg _ (by omega), Int.emod_lt_of_pos _ (by omega), rfl⟩

/-- What `addImage` returns on a well-formed registry. -/
theorem addImage_eq (a : App) (img : NRGBA) (fb : Point) (h : a.RegistryOk) :
    ∃ out, out.length = a.coordsAndUV.length ∧
      a.addImage img fb = some
        { a with
          curIndex := (a.curIndex + 1) % a.n
          imageSizes := a.imageSizes.set ((a.curIndex + 1) % a.n).toNat img.Rect.Size
          texImage := Function.update a.texImage a.tmpTexture (some img)
          showTextures := a.showTextures.set ((a.curIndex + 1) % a.n).toNat a.tmpTexture
          tmpTexture := a.showTextures.getD ((a.curIndex + 1) % a.n).toNat 0
          coordsAndUV := out } := by
  obtain ⟨hn, hx, hy, hshow, hsizes, hcoords, hc1, hc2⟩ := h
  obtain ⟨t0, t1, t2⟩ := tmod_cursor a.curIndex a.n hn hc1
  have hn0 : a.n ≠ 0 := by omega
  obtain ⟨out, ho1, ho2⟩ := layout_some a.conf.GridSize
    (a.imageSizes.set ((a.curIndex + 1) % a.n).toNat img.Rect.Size) a.coordsAndUV fb hx hy
    (by simp only [List.length_set]; omega)
  refine ⟨out, ho2, ?_⟩
  have c1 : ¬ ((a.curIndex + 1) % a.n < 0 ∨ (a.imageSizes.length : Int) ≤ (a.curIndex + 1) % a.n) := by
    rw [← t2]; omega
  have c2 : ¬ ((a.showTextures.length : Int) ≤ (a.curIndex + 1) % a.n) := by
    rw [← t2]; omega
  simp only [App.addImage, goMod, hn0, if_false, Option.bind_eq_bind, Option.some_bind, t2, c1, c2,
    App.updateCoords, App.updateCoordsWith, ho1, Option.map_some']

theorem addImage_ok (a : App) (img : NRGBA) (fb : Point) (h : a.RegistryOk) :
    ∃ a1, a.addImage img fb = some a1 ∧ a1.RegistryOk ∧ a1.n = a.n ∧ a1.conf = a.conf ∧
      a1.curIndex = (a.curIndex + 1) % a.n ∧
      a1.imageSizes = a.imageSizes.set ((a.curIndex + 1) % a.n).toNat img.Rect.Size ∧
      a1.texImage = Function.update a.texImage a.tmpTexture (some img) ∧
      a1.showTextures = a.showTextures.set ((a.curIndex + 1) % a.n).toNat a.tmpTexture ∧
      a1.tmpTexture = a.showTextures.getD ((a.curIndex + 1) % a.n).toNat 0 ∧
      a1.textures = a.textures ∧ a1.close = a.close := by
  obtain ⟨out, ho, he⟩ := addImage_eq a img fb h
  refine ⟨_, he, ?_, rfl, rfl, rfl, rfl, rfl, rfl, rfl, rfl, rfl⟩
  obtain ⟨hn, hx, hy, hshow, hsizes, hcoords, hc1, hc2⟩ := h
  refine ⟨hn, hx, hy, ?_, ?_, ?_, ?_, ?_⟩
  · simpa using hshow
  · simpa using hsizes
  · simpa [ho] using hcoords
  · have := Int.emod_nonneg (a.curIndex + 1) (show a.n ≠ 0 by omega)
    show -1 ≤ (a.curIndex + 1) % a.n
    omega
  · exact Int.emod_lt_of_pos _ (by omega)

theorem init_ok (a : App) (gen : Nat → Nat) (fb0 : Point) (hn : 1 ≤ a.n)
    (hgrid : a.n = wrapInt (a.conf.GridSize.X * a.conf.GridSize.Y)) :
    ∃ s0, (a.initTextures gen).initVertBuf fb0 = some s0 ∧ s0.RegistryOk ∧ s0.n = a.n ∧
      s0.conf = a.conf ∧ s0.curIndex = -1 ∧
      s0.showTextures = (List.range a.n.toNat).map gen ∧
      s0.tmpTexture = gen a.n.toNat ∧
      s0.imageSizes = List.replicate a.n.toNat ⟨0, 0⟩ ∧
      s0.texImage = a.texImage ∧
      s0.textures = (List.range (a.n + 1).toNat).map gen := by
  obtain ⟨hx, hy⟩ := grid_ne_zero_of_n a.conf.GridSize (by rw [← hgrid]; exact hn)
  obtain ⟨out, ho1, ho2⟩ := layout_some a.conf.GridSize (List.replicate a.n.toNat ⟨0, 0⟩)
    (List.replicate a.n.toNat Quad.zero) fb0 hx hy (by simp)
  have hN : (a.n + 1).toNat = a.n.toNat + 1 := by omega
  refine ⟨{ (a.initTextures gen) with coordsAndUV := out }, ?_, ?_, rfl, rfl, rfl, ?_, ?_, rfl,
    rfl, rfl⟩
  · simp only [App.initVertBuf, App.updateCoords, App.updateCoordsWith, App.initTextures,
      App.onClose, ho1, Option.map_some']
  · refine ⟨hn, hx, hy, ?_, ?_, ?_, ?_, ?_⟩
    · simp [App.initTextures, App.onClose, hN]
    · simp [App.initTextures, App.onClose]
    · simp [ho2, App.initTextures, App.onClose]
    · simp [App.initTextures, App.onClose]
    · simp only [App.initTextures, App.onClose]; omega
  · simp only [App.initTextures, App.onClose, hN, List.range_succ, List.map_append,
      List.map_cons, List.map_nil]
    rw [List.take_append_of_le_length (by simp)]
    simp
  · simp only [App.initTextures, App.onClose, hN, List.range_succ, List.map_append,
      List.map_cons, List.map_nil]
    simp [List.getD_eq_getElem?_getD]

theorem addImagesSeq_append (a : App) (l : List (NRGBA × Point)) (x : NRGBA × Point) :
    a.addImagesSeq (l ++ [x]) = (a.addImagesSeq l).bind (fun s => s.addImage x.1 x.2) := by
  induction l generalizing a with
  | nil =>
    simp only [List.nil_append, App.addImagesSeq, Option.some_bind]
    cases a.addImage x.1 x.2 <;> rfl
  | cons y rest ih =>
    obtain ⟨img, fb⟩ := y
    simp only [List.cons_append, App.addImagesSeq]
    cases a.addImage img fb with
    | none => rfl
    | some a1 => exact ih a1

theorem set_swap_perm (l : List Nat) (i : Nat) (t : Nat) (hi : i < l.length) :
    (l.set i t ++ [l.getD i 0]).Perm (l ++ [t]) := by
  rw [List.set_eq_take_append_cons_drop, if_pos hi]
  have hl : l = l.take i ++ l.getD i 0 :: l.drop (i + 1) := by
    rw [List.getD_eq_getElem _ _ hi]
    simp
  conv_rhs => rw [hl]
  rw [List.perm_iff_count]
  intro e
  simp only [List.count_append, List.count_cons, List.count_nil]
  omega

theorem shown_after (s s1 : App) (img : NRGBA) (c : Nat)
    (hc : c < s.showTextures.length)
    (hnd : (s.showTextures ++ [s.tmpTexture]).Nodup)
    (htex : s1.texImage = Function.update s.texImage s.tmpTexture (some img))
    (hshow : s1.showTextures = s.showTextures.set c s.tmpTexture) :
    s1.shown c = some img ∧ ∀ j, j ≠ c → s1.shown j = s.shown j := by
  constructor
  · simp [App.shown, hshow, htex, List.getElem?_set, hc]
  · intro j hj
    simp only [App.shown, hshow, htex]
    rw [List.getElem?_set_ne (Ne.symm hj)]
    cases hget : s.showTextures[j]? with
    | none => rfl
    | some t =>
      have hmem : t ∈ s.showTextures := List.mem_iff_getElem?.2 ⟨j, hget⟩
      have hne : t ≠ s.tmpTexture := by
        intro h
        rw [List.nodup_append] at hnd
        exact hnd.2.2 hmem (by simp [h])
      simp [Function.update_noteq hne]

theorem seq_inv (s0 : App) (gens : List Nat) (h0 : s0.RegistryOk) (hc : s0.curIndex = -1)
    (hperm0 : (s0.showTextures ++ [s0.tmpTexture]).Perm gens) :
    ∀ l : List (NRGBA × Point), ∃ s, s0.addImagesSeq l = some s ∧ s.RegistryOk ∧
      s.n = s0.n ∧ s.conf = s0.conf ∧ s.textures = s0.textures ∧
      (s.curIndex + 1) % s0.n = (l.length : Int) % s0.n ∧
      (s.showTextures ++ [s.tmpTexture]).Perm gens ∧
      (gens.Nodup → ∀ j : Nat, (j : Int) < s0.n → ∀ i (hi : i < l.length), (i : Int) % s0.n = j →
        (∀ i2, i < i2 → i2 < l.length → (i2 : Int) % s0.n ≠ j) →
        s.shown j = some (l[i]).1) := by
  intro l
  induction l using List.reverseRecOn with
  | nil =>
    refine ⟨s0, rfl, h0, rfl, rfl, rfl, ?_, hperm0, ?_⟩
    · rw [hc]; simp
    · intro _ j _ i hi; simp at hi
  | append_singleton l x ih =>
    obtain ⟨s, hs, hok, hn, hconf, htx, hcur, hperm, hshown⟩ := ih
    obtain ⟨s1, h1, hok1, hn1, hconf1, hcur1, hsz1, htex1, hshow1, htmp1, htx1, -⟩ :=
      addImage_ok s x.1 x.2 hok
    have hnpos : 1 ≤ s0.n := h0.1
    rw [hn] at hcur1 hshow1 htmp1 hsz1
    rw [hcur] at hcur1 hshow1 htmp1 hsz1
    have hc0 : 0 ≤ (l.length : Int) % s0.n := Int.emod_nonneg _ (by omega)
    have hc1 : (l.length : Int) % s0.n < s0.n := Int.emod_lt_of_pos _ (by omega)
    have hlen : s.showTextures.length = s0.n.toNat := by rw [← hn]; exact hok.2.2.2.1
    have hclt : ((l.length : Int) % s0.n).toNat < s.showTextures.length := by omega
    refine ⟨s1, ?_, hok1, by rw [hn1, hn], by rw [hconf1, hconf], by rw [htx1, htx], ?_, ?_, ?_⟩
    · rw [addImagesSeq_append, hs]; exact h1
    · rw [hcur1, Int.emod_add_emod]
      simp
    · rw [hshow1, htmp1]
      exact (set_swap_perm _ _ _ hclt).trans hperm
    · intro hnd j hj i hi hmod hmax
      have hnds : (s.showTextures ++ [s.tmpTexture]).Nodup := hperm.nodup_iff.2 hnd
      obtain ⟨hsh1, hsh2⟩ := shown_after s s1 x.1 _ hclt hnds htex1 hshow1
      simp only [List.length_append, List.length_singleton] at hi
      by_cases hjc : (j : Int) = (l.length : Int) % s0.n
      · have hil : i = l.length := by
          by_contra hne
          exact hmax l.length (by omega) (by simp) hjc.symm
        subst hil
        have hjj : j = ((l.length : Int) % s0.n).toNat := by omega
        rw [hjj, hsh1]
        simp
      · have hil : i < l.length := by
          rcases Nat.lt_or_ge i l.length with h | h
          · exact h
          · have : i = l.length := by omega
            subst this
            exact absurd hmod.symm hjc
        have hjj : j ≠ ((l.length : Int) % s0.n).toNat := by omega
        rw [hsh2 j hjj, hshown hnd j hj i hil hmod
          (fun i2 h1 h2 => hmax i2 h1 (by simp; omega))]
        simp [List.getElem_append_left, hil]

/-! ## Start-up and teardown -/

theorem updateCoords_close (a a1 : App) (fb : Point) (h : a.updateCoords fb = some a1) :
    a1.close = a.close ∧ a1.released = a.released := by
  simp only [App.updateCoords, App.updateCoordsWith, Option.map_eq_some'] at h
  obtain ⟨c, -, rfl⟩ := h
  exact ⟨rfl, rfl⟩

theorem addImage_close (a a1 : App) (img : NRGBA) (fb : Point)
    (h : a.addImage img fb = some a1) :
    a1.close = a.close ∧ a1.released = a.released := by
  unfold App.addImage at h
  cases hm : goMod (a.curIndex + 1) a.n with
  | none => rw [hm] at h; exact Option.noConfusion h
  | some cur =>
    rw [hm] at h
    simp only [Option.bind_eq_bind, Option.some_bind] at h
    split_ifs at h
    have h2 := updateCoords_close _ a1 fb h
    exact h2

theorem loopIter_close (a : App) (inp : LoopInput) (b : Branch) :
    match a.loopIter inp b with
    | IterResult.returned a1 => a1.close = a.close ∧ a1.released = a.released
    | IterResult.continued a1 _ => a1.close = a.close ∧ a1.released = a.released
    | IterResult.panicked a1 => a1.close = a.close ∧ a1.released = a.released
    | IterResult.blocked => True := by
  unfold App.loopIter
  by_cases h1 : inp.shouldClose = true
  · simp [h1]
  · by_cases h2 : (!b.ready inp) = true
    · simp [h1, h2]
    · simp only [h1, h2, if_false, Bool.false_eq_true]
      cases b with
      | done => simp
      | grid => simp
      | image =>
        cases hq : inp.imageReq with
        | nil => simp
        | cons img rest =>
          cases ha : a.addImage img inp.fbSize with
          | none => simp [ha]
          | some a1 => simpa [ha] using addImage_close a a1 img _ ha
      | tick =>
        by_cases hr : a.resized = true
        · simp only [hr, if_true]
          cases hu : App.updateCoords { a with resized := false } inp.fbSize with
          | none => simp
          | some a1 => simpa using updateCoords_close _ a1 _ hu
        · simp [hr]

theorem loop_close (sched : List (LoopInput × Branch)) :
    ∀ (a : App) (r : Outcome) (a1 : App), a.loop sched = some (r, a1) →
      a1.close = a.close ∧ a1.released = a.released := by
  induction sched with
  | nil => intro a r a1 h; simp [App.loop] at h
  | cons x rest ih =>
    intro a r a1 h
    obtain ⟨inp, b⟩ := x
    have hc := loopIter_close a inp b
    simp only [App.loop] at h
    cases hi : a.loopIter inp b with
    | returned a2 =>
      rw [hi] at h hc
      simp only [Option.some.injEq, Prod.mk.injEq] at h
      rw [← h.2]; exact hc
    | continued a2 d =>
      rw [hi] at h hc
      have := ih a2 r a1 h
      exact ⟨this.1.trans hc.1, this.2.trans hc.2⟩
    | panicked a2 =>
      rw [hi] at h hc
      simp only [Option.some.injEq, Prod.mk.injEq] at h
      rw [← h.2]; exact hc
    | blocked =>
      rw [hi] at h
      exact Option.noConfusion h

theorem releaseLoop_eq (close : List Callback) :
    ∀ (k : Nat) (log : List Callback), k ≤ close.length →
      releaseLoop close k log = log ++ (close.take k).reverse := by
  intro k
  induction k with
  | zero => intro log _; simp [releaseLoop]
  | succ k ih =>
    intro log hk
    have hlt : k < close.length := by omega
    simp only [releaseLoop, List.getElem?_eq_getElem hlt]
    rw [ih _ (by omega)]
    have ht : close.take (k + 1) = close.take k ++ [close[k]] := by
      rw [List.take_succ, List.getElem?_eq_getElem hlt]; rfl
    rw [ht, List.reverse_append, List.reverse_singleton, List.append_assoc]

theorem runDeferred_eq (a : App) :
    a.runDeferred.close = [] ∧ a.runDeferred.released = a.released ++ a.close.reverse := by
  refine ⟨rfl, ?_⟩
  show releaseLoop a.close a.close.length a.released = _
  rw [releaseLoop_eq _ _ _ (le_refl _), List.take_length]

theorem initVertBuf_close (a a1 : App) (fb : Point) (h : a.initVertBuf fb = some a1) :
    a1.close = a.close ∧ a1.released = a.released := by
  unfold App.initVertBuf at h
  have h2 := updateCoords_close _ a1 fb h
  exact h2

theorem runBody_registers (a : App) (env : Env) (sched : List (LoopInput × Branch))
    (r : Outcome) (a1 : App) (h : a.runBody env sched = some (r, a1)) :
    a1.released = a.released ∧
    ∃ reg vert frag prog m, a1.close = a.close ++ reg ∧
      reg = (registrationOrder vert frag prog).take m ∧ (m ≤ 7 ∨ m = 9) := by
  unfold App.runBody at h
  cases hl : env.listen with
  | some e =>
    simp only [App.startListener, hl, Option.some.injEq, Prod.mk.injEq] at h
    rw [← h.2]
    exact ⟨rfl, [], 0, 0, 0, 0, by simp, by simp, by omega⟩
  | none =>
    simp only [App.startListener, hl] at h
    cases hg : env.glfwInit with
    | some e =>
      simp only [hg, Option.some.injEq, Prod.mk.injEq] at h
      rw [← h.2]
      exact ⟨rfl, _, 0, 0, 0, 2, by simp [App.onClose, registrationOrder], rfl, by omega⟩
    | none =>
      simp only [hg, App.initWindow] at h
      by_cases hmon : 0 ≤ a.conf.Monitor ∧ (env.monitors : Int) ≤ a.conf.Monitor
      · simp only [App.onClose, hmon, and_self, if_true, Option.some.injEq, Prod.mk.injEq] at h
        rw [← h.2]
        exact ⟨rfl, _, 0, 0, 0, 3, by simp [App.onClose, registrationOrder], rfl, by omega⟩
      · simp only [App.onClose, hmon, if_false] at h
        cases hw : env.createWindow with
        | some e =>
          simp only [hw, Option.some.injEq, Prod.mk.injEq] at h
          rw [← h.2]
          exact ⟨rfl, _, 0, 0, 0, 3, by simp [App.onClose, registrationOrder], rfl, by omega⟩
        | none =>
          simp only [hw, App.initGL] at h
          cases hgl : env.glInit with
          | some e =>
            simp only [hgl, Option.some.injEq, Prod.mk.injEq] at h
            rw [← h.2]
            exact ⟨rfl, _, 0, 0, 0, 4, by simp [App.onClose, registrationOrder], rfl, by omega⟩
          | none =>
            simp only [hgl, App.initVertArr, App.compileShaders, App.onClose] at h
            cases hv : env.compileVert with
            | error e =>
              simp only [hv, Option.some.injEq, Prod.mk.injEq] at h
              rw [← h.2]
              exact ⟨rfl, _, 0, 0, 0, 5, by simp [App.onClose, registrationOrder], rfl, by omega⟩
            | ok vert =>
              simp only [hv] at h
              cases hf : env.compileFrag with
              | error e =>
                simp only [hf, Option.some.injEq, Prod.mk.injEq] at h
                rw [← h.2]
                exact ⟨rfl, _, vert, 0, 0, 6, by simp [App.onClose, registrationOrder], rfl, by omega⟩
              | ok frag =>
                simp only [hf] at h
                cases hp : env.compileProg with
                | error e =>
                  simp only [hp, Option.some.injEq, Prod.mk.injEq] at h
                  rw [← h.2]
                  exact ⟨rfl, _, vert, frag, 0, 7, by simp [App.onClose, registrationOrder], rfl, by omega⟩
                | ok prog =>
                  simp only [hp] at h
                  cases hb : App.initVertBuf _ env.fbSize with
                  | none =>
                    rw [hb] at h
                    simp only [Option.some.injEq, Prod.mk.injEq] at h
                    rw [← h.2]
                    exact ⟨rfl, _, vert, frag, prog, 9,
                      by simp [App.initTextures, App.onClose, registrationOrder], rfl, by omega⟩
                  | some a3 =>
                    rw [hb] at h
                    simp only at h
                    have h3 := initVertBuf_close _ a3 _ hb
                    have h4 := loop_close sched a3 r a1 h
                    refine ⟨by rw [h4.2, h3.2]; rfl, _, vert, frag, prog, 9, ?_, rfl, by omega⟩
                    rw [h4.1, h3.1]
                    simp [App.initTextures, App.onClose, registrationOrder]

/-! ## Server -/

theorem converted_cons_ok {π ι : Type} (c : Codec π ι) (x : π) (rest : List π) (img : ι)
    (h : c.Decode x = .ok img) :
    c.converted (x :: rest) = c.toNRGBA img :: c.converted rest := by
  simp [Codec.converted, List.filterMap_cons, h]

/-- With every `select` sending, `addImages` stops at the first image that does
not decode, having sent the converted images before it. -/
theorem addImages_fail {π ι : Type} (c : Codec π ι) (ctxErr : String) :
    ∀ (arr : List π) (sel : Nat → SelectCase) (s : server) (j : Nat) (e : String)
      (hj : j < arr.length), (∀ i, sel i = SelectCase.send) →
      (∀ i (hi : i < j), ∃ img, c.Decode (arr[i]) = .ok img) →
      c.Decode (arr[j]) = .error e →
      server.addImages c ctxErr sel arr s
          = (some e, { s with images := s.images ++ c.converted (arr.take j) }) ∧
        (∀ i (hi : i < j), ∃ img, c.Decode (arr[i]) = .ok img ∧
          (c.converted (arr.take j))[i]? = some (c.toNRGBA img)) ∧
        (c.converted (arr.take j)).length = j := by
  intro arr
  induction arr with
  | nil => intro sel s j e hj; simp at hj
  | cons x rest ih =>
    intro sel s j e hj hsel hok herr
    cases j with
    | zero =>
      simp only [List.getElem_cons_zero] at herr
      refine ⟨?_, ?_, ?_⟩
      · simp [server.addImages, herr, Codec.converted]
      · intro i hi; omega
      · simp [Codec.converted]
    | succ j =>
      obtain ⟨img, himg⟩ := hok 0 (Nat.succ_pos _)
      simp only [List.getElem_cons_zero] at himg
      simp only [List.length_cons] at hj
      have hj2 : j < rest.length := by omega
      obtain ⟨h1, h2, h3⟩ := ih (fun i => sel (i + 1))
        { s with images := s.images ++ [c.toNRGBA img] } j e hj2 (fun i => hsel _)
        (fun i hi => by
          have := hok (i + 1) (by omega)
          simpa using this)
        (by simpa using herr)
      refine ⟨?_, ?_, ?_⟩
      · simp only [server.addImages, himg, hsel 0, h1, List.take_succ_cons,
          converted_cons_ok c x _ img himg]
        simp
      · intro i hi
        cases i with
        | zero =>
          refine ⟨img, by simpa using himg, ?_⟩
          simp [List.take_succ_cons, converted_cons_ok c x _ img himg]
        | succ i =>
          obtain ⟨im2, hd, hg⟩ := h2 i (by omega)
          refine ⟨im2, by simpa using hd, ?_⟩
          simp only [List.take_succ_cons, converted_cons_ok c x _ img himg]
          simpa using hg
      · simp only [List.take_succ_cons, converted_cons_ok c x _ img himg, List.length_cons, h3]

/-- With every `select` sending and every image decoding, `addImages` sends
them all. -/
theorem addImages_all {π ι : Type} (c : Codec π ι) (ctxErr : String) :
    ∀ (arr : List π) (sel : Nat → SelectCase) (s : server),
      (∀ i, sel i = SelectCase.send) →
      (∀ i (hi : i < arr.length), ∃ img, c.Decode (arr[i]) = .ok img) →
      server.addImages c ctxErr sel arr s
          = (none, { s with images := s.images ++ c.converted arr }) ∧
        (∀ i (hi : i < arr.length), ∃ img, c.Decode (arr[i]) = .ok img ∧
          (c.converted arr)[i]? = some (c.toNRGBA img)) ∧
        (c.converted arr).length = arr.length := by
  intro arr
  induction arr with
  | nil =>
    intro sel s _ _
    refine ⟨by simp [server.addImages, Codec.converted], ?_, by simp [Codec.converted]⟩
    intro i hi; simp at hi
  | cons x rest ih =>
    intro sel s hsel hok
    obtain ⟨img, himg⟩ := hok 0 (by simp)
    simp only [List.getElem_cons_zero] at himg
    obtain ⟨h1, h2, h3⟩ := ih (fun i => sel (i + 1))
      { s with images := s.images ++ [c.toNRGBA img] } (fun i => hsel _)
      (fun i hi => by
        have := hok (i + 1) (by simp; omega)
        simpa using this)
    refine ⟨?_, ?_, ?_⟩
    · simp only [server.addImages, himg, hsel 0, h1, converted_cons_ok c x _ img himg]
      simp
    · intro i hi
      cases i with
      | zero =>
        refine ⟨img, by simpa using himg, ?_⟩
        simp [converted_cons_ok c x _ img himg]
      | succ i =>
        obtain ⟨im2, hd, hg⟩ := h2 i (by simp at hi; omega)
        refine ⟨im2, by simpa using hd, ?_⟩
        simp only [converted_cons_ok c x _ img himg]
        simpa using hg
    · simp only [converted_cons_ok c x _ img himg, List.length_cons, h3]

/-! ## The layout claims -/

theorem scenario_layout :
    layout ⟨2, 1⟩ [⟨400, 400⟩, ⟨0, 0⟩] [Quad.zero, Quad.zero] ⟨800, 400⟩ = some
      [ [⟨(-1, -1), (0, 0)⟩, ⟨(0, -1), (1, 0)⟩, ⟨(-1, 1), (0, 1)⟩, ⟨(0, 1), (1, 1)⟩],
        [⟨(0, -1), (0, 0)⟩, ⟨(1, -1), (1, 0)⟩, ⟨(0, 1), (0, 1)⟩, ⟨(1, 1), (1, 1)⟩] ] := by
  simp [layout, maxSizeStep, goDiv, goMod, calcScale, calcOffset, cellsLoop, cellQuad,
    List.range_succ, cellCorner, shrinkCorner, Quad.zero, wrapInt, Int.tdiv, Int.tmod]
  norm_num

/-- The layout of the 2 by 1 grid on an 800 by 400 screen when the recorded
width `2 ^ 62` makes `idealSize.X` wrap around to `-2 ^ 63`. -/
theorem wide_layout :
    layout ⟨2, 1⟩ [⟨2 ^ 62, 1⟩, ⟨0, 0⟩] [Quad.zero, Quad.zero] ⟨800, 400⟩ = some
      [ [⟨(4611686018427387904, 1), (0, 0)⟩, ⟨(0, 1), (1, 0)⟩,
         ⟨(4611686018427387904, -1), (0, 1)⟩, ⟨(0, -1), (1, 1)⟩],
        [⟨(0, -1), (0, 0)⟩, ⟨(-4611686018427387904, -1), (1, 0)⟩,
         ⟨(0, 1), (0, 1)⟩, ⟨(-4611686018427387904, 1), (1, 1)⟩] ] := by
  have t1 : Int.tdiv (-9223372036854775808) 2 = -4611686018427387904 := by decide
  simp [layout, maxSizeStep, goDiv, goMod, calcScale, calcOffset, cellsLoop, cellQuad,
    List.range_succ, cellCorner, shrinkCorner, Quad.zero, wrapInt, t1]
  simp [Int.tdiv, Int.tmod]
  norm_num

/-- The layout of the 3 by 1 grid on an 800 by 400 screen when the recorded
width `2 ^ 62` makes `idealSize.X` wrap around to `-2 ^ 62`. -/
theorem wide_layout3 :
    layout ⟨3, 1⟩ [⟨2 ^ 62, 1⟩, ⟨100, 300⟩, ⟨0, 0⟩] [Quad.zero, Quad.zero, Quad.zero]
        ⟨800, 400⟩ = some
      [ [⟨(576460752303423488 / 75, 1537228672809129301 / 1383505805528216371200), (0, 0)⟩,
         ⟨(576460752303423488 / 225, 1537228672809129301 / 1383505805528216371200), (1, 0)⟩,
         ⟨(576460752303423488 / 75, -1537228672809129301 / 1383505805528216371200), (0, 1)⟩,
         ⟨(576460752303423488 / 225, -1537228672809129301 / 1383505805528216371200), (1, 1)⟩],
        [⟨(576460752303423488 / 225, 1537228672809129301 / 100), (0, 0)⟩,
         ⟨(-576460752303423488 / 225, 1537228672809129301 / 100), (1, 0)⟩,
         ⟨(576460752303423488 / 225, -1537228672809129301 / 100), (0, 1)⟩,
         ⟨(-576460752303423488 / 225, -1537228672809129301 / 100), (1, 1)⟩],
        [⟨(-576460752303423488 / 225, -1), (0, 0)⟩,
         ⟨(-576460752303423488 / 75, -1), (1, 0)⟩,
         ⟨(-576460752303423488 / 225, 1), (0, 1)⟩,
         ⟨(-576460752303423488 / 75, 1), (1, 1)⟩] ] := by
  have t1 : Int.tdiv (-4611686018427387904) 3 = -1537228672809129301 := by decide
  simp [layout, maxSizeStep, goDiv, goMod, calcScale, calcOffset, cellsLoop, cellQuad,
    List.range_succ, cellCorner, shrinkCorner, Quad.zero, wrapInt, t1]
  simp [Int.tdiv, Int.tmod]
  norm_num

/-- C1, as the code behaves.  For a grid with `cols > 0` and `rows > 0`, a
screen size with nonnegative components and `n = cols * rows` recorded image
sizes with nonnegative components, all of them `int` values (below `2 ^ 63`)
such that no recorded width times `cols` and no recorded height times `rows`
reaches `2 ^ 63` (so `idealSize = maxSize * grid` does not overflow),
`updateCoordsWith` returns, and each of the four corners it writes for each
cell has its `x` and its `y` in `[-1, 1]`. -/
theorem updateCoordsWith_corners_in_bounds (a : App) (screen : Point)
    (hc : 0 < a.conf.GridSize.X) (hr : 0 < a.conf.GridSize.Y)
    (hsx : 0 ≤ screen.X) (hsy : 0 ≤ screen.Y)
    (hn : (a.imageSizes.length : Int) = a.conf.GridSize.X * a.conf.GridSize.Y)
    (hsz : ∀ sz ∈ a.imageSizes, 0 ≤ sz.X ∧ 0 ≤ sz.Y)
    (hcoords : a.coordsAndUV.length = a.imageSizes.length)
    (hnb : (a.imageSizes.length : Int) < 2 ^ 63)
    (hsxb : screen.X < 2 ^ 63) (hsyb : screen.Y < 2 ^ 63)
    (hszb : ∀ sz ∈ a.imageSizes,
      sz.X * a.conf.GridSize.X < 2 ^ 63 ∧ sz.Y * a.conf.GridSize.Y < 2 ^ 63) :
    ∃ a1, a.updateCoordsWith screen = some a1 ∧
      a1.coordsAndUV.length = a.imageSizes.length ∧
      ∀ i, i < a.imageSizes.length → ∃ q, a1.coordsAndUV[i]? = some q ∧ q.length = 4 ∧
        ∀ c ∈ q, -1 ≤ c.Pos.1 ∧ c.Pos.1 ≤ 1 ∧ -1 ≤ c.Pos.2 ∧ c.Pos.2 ≤ 1 := by
  obtain ⟨out, h1, h2, h3⟩ := layout_corners_in_bounds a.conf.GridSize a.imageSizes
    a.coordsAndUV screen hc hr hsx hsy hn hsz hcoords hnb hsxb hsyb hszb
  exact ⟨{ a with coordsAndUV := out }, by simp [App.updateCoordsWith, h1], h2, h3⟩

theorem updateCoordsWith_corners_in_bounds_witness :
    (0 < scenarioApp.conf.GridSize.X ∧ 0 < scenarioApp.conf.GridSize.Y) ∧
    (∀ sz ∈ scenarioApp.imageSizes, sz.X * scenarioApp.conf.GridSize.X < 2 ^ 63 ∧
      sz.Y * scenarioApp.conf.GridSize.Y < 2 ^ 63) ∧
    ∃ a1, scenarioApp.updateCoordsWith ⟨800, 400⟩ = some a1 ∧
      a1.coordsAndUV.length = scenarioApp.imageSizes.length ∧
      ∀ i, i < scenarioApp.imageSizes.length → ∃ q, a1.coordsAndUV[i]? = some q ∧
        q.length = 4 ∧
        ∀ c ∈ q, -1 ≤ c.Pos.1 ∧ c.Pos.1 ≤ 1 ∧ -1 ≤ c.Pos.2 ∧ c.Pos.2 ≤ 1 :=
  ⟨by decide, by decide,
    updateCoordsWith_corners_in_bounds scenarioApp ⟨800, 400⟩ (by decide) (by decide)
      (by decide) (by decide) (by decide) (by decide) (by decide) (by decide) (by decide)
      (by decide) (by decide)⟩

/-- C1 as stated fails.  The state `wideImageApp` meets the conditions of the
claim (grid 2 by 1, screen 800 by 400, two recorded sizes with nonnegative
components), but the width `2 ^ 62` makes `maxSize.X * grid.X` wrap around, and
`updateCoordsWith` writes a corner of cell 0 with `x = 2 ^ 62`, outside
`[-1, 1]`. -/
theorem updateCoordsWith_overflow_out_of_bounds :
    (0 < wideImageApp.conf.GridSize.X ∧ 0 < wideImageApp.conf.GridSize.Y) ∧
    ((wideImageApp.imageSizes.length : Int)
      = wideImageApp.conf.GridSize.X * wideImageApp.conf.GridSize.Y) ∧
    (∀ sz ∈ wideImageApp.imageSizes, 0 ≤ sz.X ∧ 0 ≤ sz.Y) ∧
    ∃ a1 q c, wideImageApp.updateCoordsWith ⟨800, 400⟩ = some a1 ∧
      a1.coordsAndUV[0]? = some q ∧ c ∈ q ∧ 1 < c.Pos.1 := by
  refine ⟨by decide, by decide, by decide, ?_⟩
  have h := wide_layout
  have h1 : wideImageApp.updateCoordsWith ⟨800, 400⟩ =
      (layout ⟨2, 1⟩ [⟨2 ^ 62, 1⟩, ⟨0, 0⟩] [Quad.zero, Quad.zero] ⟨800, 400⟩).map
        (fun c => { wideImageApp with coordsAndUV := c }) := rfl
  rw [h] at h1
  refine ⟨_, _, ⟨(4611686018427387904, 1), (0, 0)⟩, h1, rfl, by simp, ?_⟩
  norm_num

/-- C2, as the code behaves.  For a screen and a grid with positive
components, fewer than `2 ^ 63` recorded sizes none of which has a width times
`cols` or a height times `rows` that reaches `2 ^ 63` (so
`idealSize = maxSize * grid` does not overflow), and a cell `i` whose recorded
image size `(w, h)` is positive, `updateCoordsWith` returns and the quad of
cell `i` is an axis-parallel rectangle of positive extent whose on-screen pixel
width `quadWidth * screen.X / 2` and height `quadHeight * screen.Y / 2` have
the ratio `w / h`.  Likewise `calcScale dst src` for positive `dst` and `src`
returns `(sw, sh)` in `(0, 1]`, one of them `1`, with
`dst.X * sw / (dst.Y * sh) = src.X / src.Y`. -/
theorem updateCoordsWith_preserves_aspect (a : App) (screen : Point) (i : Nat) (w h : Int)
    (hc : 0 < a.conf.GridSize.X) (hr : 0 < a.conf.GridSize.Y)
    (hW : 0 < screen.X) (hH : 0 < screen.Y)
    (hi : a.imageSizes[i]? = some ⟨w, h⟩) (hw : 0 < w) (hh : 0 < h)
    (hlen : a.imageSizes.length ≤ a.coordsAndUV.length)
    (hnb : (a.imageSizes.length : Int) < 2 ^ 63)
    (hszb : ∀ sz ∈ a.imageSizes,
      sz.X * a.conf.GridSize.X < 2 ^ 63 ∧ sz.Y * a.conf.GridSize.Y < 2 ^ 63) :
    (∃ a1 c0 c1 c2 c3, a.updateCoordsWith screen = some a1 ∧
      a1.coordsAndUV[i]? = some [c0, c1, c2, c3] ∧
      c0.Pos.2 = c1.Pos.2 ∧ c2.Pos.2 = c3.Pos.2 ∧ c0.Pos.1 = c2.Pos.1 ∧ c1.Pos.1 = c3.Pos.1 ∧
      0 < c1.Pos.1 - c0.Pos.1 ∧ 0 < c2.Pos.2 - c0.Pos.2 ∧
      ((c1.Pos.1 - c0.Pos.1) * (screen.X : ℚ) / 2) / ((c2.Pos.2 - c0.Pos.2) * (screen.Y : ℚ) / 2)
        = (w : ℚ) / (h : ℚ)) ∧
    (∀ dst src : Point, 0 < dst.X → 0 < dst.Y → 0 < src.X → 0 < src.Y →
      0 < (calcScale dst src).1 ∧ (calcScale dst src).1 ≤ 1 ∧
      0 < (calcScale dst src).2 ∧ (calcScale dst src).2 ≤ 1 ∧
      ((calcScale dst src).1 = 1 ∨ (calcScale dst src).2 = 1) ∧
      ((dst.X : ℚ) * (calcScale dst src).1) / ((dst.Y : ℚ) * (calcScale dst src).2)
        = (src.X : ℚ) / (src.Y : ℚ)) := by
  refine ⟨?_, calcScale_pos⟩
  obtain ⟨out, c0, c1, c2, c3, h1, h2, h3⟩ := layout_aspect a.conf.GridSize a.imageSizes
    a.coordsAndUV screen i w h hc hr hW hH hi hw hh hlen hnb hszb
  exact ⟨{ a with coordsAndUV := out }, c0, c1, c2, c3, by simp [App.updateCoordsWith, h1],
    h2, h3⟩

theorem updateCoordsWith_preserves_aspect_witness :
    ∃ a1 c0 c1 c2 c3,
      App.updateCoordsWith { scenarioApp with imageSizes := [⟨400, 200⟩, ⟨100, 300⟩] }
        ⟨800, 400⟩ = some a1 ∧
      a1.coordsAndUV[1]? = some [c0, c1, c2, c3] ∧
      ((c1.Pos.1 - c0.Pos.1) * ((800 : Int) : ℚ) / 2) / ((c2.Pos.2 - c0.Pos.2) * ((400 : Int) : ℚ) / 2)
        = ((100 : Int) : ℚ) / ((300 : Int) : ℚ) := by
  obtain ⟨⟨a1, c0, c1, c2, c3, h1, h2, -, -, -, -, -, -, h3⟩, -⟩ :=
    updateCoordsWith_preserves_aspect { scenarioApp with imageSizes := [⟨400, 200⟩, ⟨100, 300⟩] }
      ⟨800, 400⟩ 1 100 300 (by decide) (by decide) (by decide) (by decide) rfl (by decide)
      (by decide) (by decide) (by decide) (by decide)
  exact ⟨a1, c0, c1, c2, c3, h1, h2, h3⟩

/-- C2 as stated fails.  In the state `wideImageApp3` (grid 3 by 1, screen 800
by 400) cell 1 has the positive recorded size `(100, 300)`, but the width
`2 ^ 62` recorded for cell 0 makes `maxSize.X * grid.X` wrap around, and the
quad that `updateCoordsWith` writes for cell 1 has a pixel extent whose ratio is
not `100 / 300`. -/
theorem updateCoordsWith_overflow_breaks_aspect :
    (0 < wideImageApp3.conf.GridSize.X ∧ 0 < wideImageApp3.conf.GridSize.Y) ∧
    wideImageApp3.imageSizes[1]? = some ⟨100, 300⟩ ∧
    ∃ a1 c0 c1 c2 c3, wideImageApp3.updateCoordsWith ⟨800, 400⟩ = some a1 ∧
      a1.coordsAndUV[1]? = some [c0, c1, c2, c3] ∧
      ((c1.Pos.1 - c0.Pos.1) * ((800 : Int) : ℚ) / 2) / ((c2.Pos.2 - c0.Pos.2) * ((400 : Int) : ℚ) / 2)
        ≠ ((100 : Int) : ℚ) / ((300 : Int) : ℚ) := by
  refine ⟨by decide, rfl, ?_⟩
  have h := wide_layout3
  have h1 : wideImageApp3.updateCoordsWith ⟨800, 400⟩ =
      (layout ⟨3, 1⟩ [⟨2 ^ 62, 1⟩, ⟨100, 300⟩, ⟨0, 0⟩] [Quad.zero, Quad.zero, Quad.zero]
        ⟨800, 400⟩).map (fun c => { wideImageApp3 with coordsAndUV := c }) := rfl
  rw [h] at h1
  refine ⟨_, _, _, _, _, h1, rfl, ?_⟩
  norm_num

/-- C3, as the code behaves: in the scenario (grid 2 by 1, screen 800 by 400,
sizes `[(400, 400), none]`) the quad of cell 0 is exactly the half-screen cell
`x` in `[-1, 0]`, `y` in `[-1, 1]`, and the quad of cell 1 is exactly the cell
`x` in `[0, 1]`, `y` in `[-1, 1]`. -/
theorem scenario_quads :
    (scenarioApp.updateCoordsWith ⟨800, 400⟩).map (fun a1 => a1.coordsAndUV) = some
      [ [⟨(-1, -1), (0, 0)⟩, ⟨(0, -1), (1, 0)⟩, ⟨(-1, 1), (0, 1)⟩, ⟨(0, 1), (1, 1)⟩],
        [⟨(0, -1), (0, 0)⟩, ⟨(1, -1), (1, 0)⟩, ⟨(0, 1), (0, 1)⟩, ⟨(1, 1), (1, 1)⟩] ] := by
  have h := scenario_layout
  simp only [App.updateCoordsWith, Option.map_map]
  show Option.map _ (layout ⟨2, 1⟩ [⟨400, 400⟩, ⟨0, 0⟩] [Quad.zero, Quad.zero] ⟨800, 400⟩) = _
  rw [h]
  rfl

/-- C3 as stated fails: in the scenario the quad of cell 0 is not strictly
narrower than the half-screen cell `[-1, 0]`, whose width is `0 - (-1)`. -/
theorem scenario_cell0_not_narrower :
    ¬ ∃ a1 c0 c1 c2 c3, scenarioApp.updateCoordsWith ⟨800, 400⟩ = some a1 ∧
      a1.coordsAndUV[0]? = some [c0, c1, c2, c3] ∧
      c1.Pos.1 - c0.Pos.1 < (0 : ℚ) - (-1) := by
  rintro ⟨a1, c0, c1, c2, c3, h1, h2, h3⟩
  have h := scenario_layout
  simp only [App.updateCoordsWith, Option.map_eq_some'] at h1
  obtain ⟨out, ho, rfl⟩ := h1
  have ho2 : layout ⟨2, 1⟩ [⟨400, 400⟩, ⟨0, 0⟩] [Quad.zero, Quad.zero] ⟨800, 400⟩ = some out := ho
  rw [h] at ho2
  have := Option.some.inj ho2
  subst this
  simp only [List.getElem?_cons_zero, Option.some.injEq, List.cons.injEq, and_true] at h2
  obtain ⟨e0, e1, -, -⟩ := h2
  rw [← e0, ← e1] at h3
  norm_num at h3

/-- C6, as the code behaves: for a grid without zero component (the only grids
that pass the check of `Run`) and slices of matching length, `updateCoordsWith`
returns for every screen size and every recorded sizes, zero ones included;
`calcScale` returns `(1, 1)` whenever a component of `dst` or of `src` is zero,
and so the screen-level scale is `(1, 1)` for a screen of zero width or height,
and the scale of an image of zero width or height in its cell is `(1, 1)`. -/
theorem updateCoordsWith_no_fault (a : App) (screen : Point)
    (hx : a.conf.GridSize.X ≠ 0) (hy : a.conf.GridSize.Y ≠ 0)
    (hlen : a.imageSizes.length ≤ a.coordsAndUV.length) :
    (∃ a1, a.updateCoordsWith screen = some a1) ∧
    (∀ dst src : Point, (dst.X = 0 ∨ dst.Y = 0 ∨ src.X = 0 ∨ src.Y = 0) →
      calcScale dst src = (1, 1)) ∧
    ((screen.X = 0 ∨ screen.Y = 0) →
      layoutScreenScale a.conf.GridSize a.imageSizes screen = (1, 1)) ∧
    (∀ sz ∈ a.imageSizes, (sz.X = 0 ∨ sz.Y = 0) →
      calcScale (layoutMaxSize a.conf.GridSize a.imageSizes screen) sz = (1, 1)) ∧
    (∀ sz ∈ a.imageSizes, (sz.X = 0 ∨ sz.Y = 0) →
      calcScale (layoutCellSize a.conf.GridSize a.imageSizes screen) sz = (1, 1)) := by
  refine ⟨?_, calcScale_degenerate, ?_, ?_, ?_⟩
  · obtain ⟨out, h1, -⟩ := layout_some a.conf.GridSize a.imageSizes a.coordsAndUV screen
      hx hy hlen
    exact ⟨{ a with coordsAndUV := out }, by simp [App.updateCoordsWith, h1]⟩
  · intro h
    unfold layoutScreenScale
    exact calcScale_degenerate _ _ (by tauto)
  · intro sz _ h
    exact calcScale_degenerate _ _ (by tauto)
  · intro sz _ h
    exact calcScale_degenerate _ _ (by tauto)

theorem updateCoordsWith_no_fault_witness :
    (∃ a1, App.updateCoordsWith { scenarioApp with imageSizes := [⟨0, 7⟩, ⟨0, 0⟩] } ⟨0, 400⟩
      = some a1) ∧
    calcScale ⟨0, 400⟩ ⟨0, 7⟩ = (1, 1) :=
  have h := updateCoordsWith_no_fault { scenarioApp with imageSizes := [⟨0, 7⟩, ⟨0, 0⟩] }
    ⟨0, 400⟩ (by decide) (by decide) (by decide)
  ⟨h.1, h.2.1 _ _ (Or.inl rfl)⟩

/-- C6 as stated fails for a grid of zero columns: there is no cell, so no
index can be out of range, and `updateCoordsWith` panics on the integer
division `screen.X / grid.X`. -/
theorem updateCoordsWith_zero_cols_faults :
    zeroColsApp.imageSizes = [] ∧
    goDiv 800 zeroColsApp.conf.GridSize.X = none ∧
    zeroColsApp.updateCoordsWith ⟨800, 400⟩ = none := by
  refine ⟨rfl, rfl, ?_⟩
  simp [App.updateCoordsWith, zeroColsApp, New, configWithGrid, Config.withDefaultHost,
    layout, goDiv]

/-! ## The slot-registry claims -/

/-- C4 (ring assignment).  Start from the state that `initTextures` and
`initVertBuf` set up (`curIndex = -1`, `n >= 1` slots).  After any `calls` of
`addImage`, the next call, number `k = calls.length + 1`, with image `img`,
returns and writes slot `(k - 1) mod n`: the cursor is `(k - 1) mod n`,
`imageSizes[curIndex]` is the size of `img`, `showTextures[curIndex]` is the
name that was the scratch texture before the call, and `img` is what was
uploaded into that name.  Hence, the names written by `gl.GenTextures` being
distinct, every slot `j` shows the most recent image whose zero-based sequence
number is `j` modulo `n`, and with `n = 2` and the images `A, B, C` slot 0
shows `C` and slot 1 shows `B`. -/
theorem addImage_ring_assignment (a : App) (gen : Nat → Nat) (fb0 : Point)
    (calls : List (NRGBA × Point)) (img : NRGBA) (fb : Point)
    (hn : 1 ≤ a.n) (hgrid : a.n = wrapInt (a.conf.GridSize.X * a.conf.GridSize.Y)) :
    ∃ s0 before after,
      (a.initTextures gen).initVertBuf fb0 = some s0 ∧ s0.curIndex = -1 ∧
      s0.addImagesSeq calls = some before ∧ before.addImage img fb = some after ∧
      after.curIndex = (calls.length : Int) % a.n ∧
      after.imageSizes[after.curIndex.toNat]? = some img.Rect.Size ∧
      after.showTextures[after.curIndex.toNat]? = some before.tmpTexture ∧
      after.texImage before.tmpTexture = some img ∧
      (((List.range (a.n + 1).toNat).map gen).Nodup →
        ∀ j : Nat, (j : Int) < a.n → ∀ i (hi : i < (calls ++ [(img, fb)]).length),
        (i : Int) % a.n = j →
        (∀ i2, i < i2 → i2 < (calls ++ [(img, fb)]).length → (i2 : Int) % a.n ≠ j) →
        after.shown j = some ((calls ++ [(img, fb)])[i]).1) ∧
      (((List.range (a.n + 1).toNat).map gen).Nodup → a.n = 2 →
        ∀ A B fA fB, calls = [(A, fA), (B, fB)] →
        after.shown 0 = some img ∧ after.shown 1 = some B) := by
  obtain ⟨s0, hs0, hok0, hn0, hconf0, hcur0, hshow0, htmp0, -, -, -⟩ :=
    init_ok a gen fb0 hn hgrid
  have hN : (a.n + 1).toNat = a.n.toNat + 1 := by omega
  have hperm0 : (s0.showTextures ++ [s0.tmpTexture]).Perm ((List.range (a.n + 1).toNat).map gen) := by
    rw [hshow0, htmp0, hN, List.range_succ, List.map_append]
    exact List.Perm.refl _
  obtain ⟨before, hb, hbok, hbn, -, -, hbcur, hbperm, -⟩ :=
    seq_inv s0 _ hok0 hcur0 hperm0 calls
  obtain ⟨after2, ha2, -, -, -, -, -, -, hshown⟩ :=
    seq_inv s0 _ hok0 hcur0 hperm0 (calls ++ [(img, fb)])
  obtain ⟨after, ha, haok, han, -, hacur, hasz, hatex, hashow, -, -, -⟩ :=
    addImage_ok before img fb hbok
  have hsame : after2 = after := by
    rw [addImagesSeq_append, hb] at ha2
    simp only [Option.some_bind] at ha2
    rw [ha] at ha2
    exact (Option.some.inj ha2).symm
  subst hsame
  rw [hn0] at hbcur hshown
  rw [hbn, hn0, hbcur] at hacur hasz hashow
  have hc0 : 0 ≤ (calls.length : Int) % a.n := Int.emod_nonneg _ (by omega)
  have hc1 : (calls.length : Int) % a.n < a.n := Int.emod_lt_of_pos _ (by omega)
  have hl1 : before.imageSizes.length = a.n.toNat := by
    rw [← hn0, ← hbn]; exact hbok.2.2.2.2.1
  have hl2 : before.showTextures.length = a.n.toNat := by
    rw [← hn0, ← hbn]; exact hbok.2.2.2.1
  refine ⟨s0, before, after2, hs0, hcur0, hb, ha, hacur, ?_, ?_, ?_, hshown, ?_⟩
  · rw [hacur, hasz]
    simp [List.getElem?_set]
    omega
  · rw [hacur, hashow]
    simp [List.getElem?_set]
    omega
  · rw [hatex]; simp
  · intro hnd h2 A B fA fB hcalls
    subst hcalls
    have hshown := hshown hnd
    rw [h2] at hshown
    constructor
    · exact hshown 0 (by decide) 2 (by simp) (by decide)
        (fun i2 h1 h3 => by simp at h3; omega)
    · exact hshown 1 (by decide) 1 (by simp) (by decide)
        (fun i2 h1 h3 => by
          simp at h3
          have : i2 = 2 := by omega
          subst this
          decide)

theorem addImage_ring_assignment_witness :
    (1 : Int) ≤ twoCellStarted.n ∧
    ∃ s0 before after,
      (twoCellStarted.initTextures envOk.genTextures).initVertBuf ⟨800, 400⟩ = some s0 ∧
      s0.addImagesSeq [(imgA, ⟨800, 400⟩), (imgB, ⟨640, 480⟩)] = some before ∧
      before.addImage imgC ⟨640, 480⟩ = some after ∧
      after.curIndex = 0 ∧ after.shown 0 = some imgC ∧ after.shown 1 = some imgB := by
  refine ⟨by decide, ?_⟩
  obtain ⟨s0, before, after, h1, -, h3, h4, h5, -, -, -, -, h10⟩ :=
    addImage_ring_assignment twoCellStarted envOk.genTextures ⟨800, 400⟩
      [(imgA, ⟨800, 400⟩), (imgB, ⟨640, 480⟩)] imgC ⟨640, 480⟩
      (by decide) (by decide)
  exact ⟨s0, before, after, h1, h3, h4, by rw [h5]; decide,
    h10 (by decide) rfl imgA imgB _ _ rfl⟩

/-- C5 (scratch texture).  If the `n + 1` names generated in `initTextures` are
pairwise distinct then, after any `calls` of `addImage`, `showTextures` followed
by `tmpTexture` is a permutation of those names, `tmpTexture` is none of the
displayed names, and `textures` still holds exactly the generated names; a
further `addImage` returns, exchanges `tmpTexture` with
`showTextures[curIndex]` and leaves every other display slot unchanged. -/
theorem scratch_texture_invariant (a : App) (gen : Nat → Nat) (fb0 : Point)
    (calls : List (NRGBA × Point))
    (hn : 1 ≤ a.n) (hgrid : a.n = wrapInt (a.conf.GridSize.X * a.conf.GridSize.Y))
    (hnd : ((List.range (a.n + 1).toNat).map gen).Nodup) :
    ∃ s0 s,
      (a.initTextures gen).initVertBuf fb0 = some s0 ∧
      s0.addImagesSeq calls = some s ∧
      (s.showTextures ++ [s.tmpTexture]).Perm ((List.range (a.n + 1).toNat).map gen) ∧
      s.tmpTexture ∉ s.showTextures ∧
      s.textures = (List.range (a.n + 1).toNat).map gen ∧
      ∀ img fb, ∃ s1, s.addImage img fb = some s1 ∧
        0 ≤ s1.curIndex ∧ s1.curIndex.toNat < s.showTextures.length ∧
        s.showTextures[s1.curIndex.toNat]? = some s1.tmpTexture ∧
        s1.showTextures[s1.curIndex.toNat]? = some s.tmpTexture ∧
        ∀ j, j ≠ s1.curIndex.toNat → s1.showTextures[j]? = s.showTextures[j]? := by
  obtain ⟨s0, hs0, hok0, hn0, hconf0, hcur0, hshow0, htmp0, -, -, htx0⟩ :=
    init_ok a gen fb0 hn hgrid
  have hN : (a.n + 1).toNat = a.n.toNat + 1 := by omega
  have hperm0 : (s0.showTextures ++ [s0.tmpTexture]).Perm ((List.range (a.n + 1).toNat).map gen) := by
    rw [hshow0, htmp0, hN, List.range_succ, List.map_append]
    exact List.Perm.refl _
  obtain ⟨s, hs, hsok, hsn, -, hstx, -, hsperm, -⟩ :=
    seq_inv s0 _ hok0 hcur0 hperm0 calls
  have hnds : (s.showTextures ++ [s.tmpTexture]).Nodup := hsperm.nodup_iff.2 hnd
  refine ⟨s0, s, hs0, hs, hsperm, ?_, by rw [hstx, htx0], ?_⟩
  · intro hmem
    rw [List.nodup_append] at hnds
    exact hnds.2.2 hmem (by simp)
  · intro img fb
    obtain ⟨s1, h1, -, -, -, hcur1, -, -, hshow1, htmp1, -, -⟩ := addImage_ok s img fb hsok
    have hnpos : 1 ≤ s.n := hsok.1
    have hc0 : 0 ≤ (s.curIndex + 1) % s.n := Int.emod_nonneg _ (by omega)
    have hc1 : (s.curIndex + 1) % s.n < s.n := Int.emod_lt_of_pos _ (by omega)
    have hlen : s.showTextures.length = s.n.toNat := hsok.2.2.2.1
    have hlt : ((s.curIndex + 1) % s.n).toNat < s.showTextures.length := by omega
    refine ⟨s1, h1, by rw [hcur1]; exact hc0, by rw [hcur1]; exact hlt, ?_, ?_, ?_⟩
    · rw [hcur1, htmp1, List.getD_eq_getElem _ _ hlt, List.getElem?_eq_getElem hlt]
    · rw [hcur1, hshow1]
      simp [List.getElem?_set, hlt]
    · intro j hj
      rw [hcur1] at hj
      rw [hshow1, List.getElem?_set_ne (Ne.symm hj)]

theorem scratch_texture_invariant_witness :
    ((List.range (twoCellStarted.n + 1).toNat).map envOk.genTextures).Nodup ∧
    ∃ s0 s,
      (twoCellStarted.initTextures envOk.genTextures).initVertBuf ⟨800, 400⟩ = some s0 ∧
      s0.addImagesSeq [(imgA, ⟨800, 400⟩), (imgB, ⟨640, 480⟩), (imgC, ⟨640, 480⟩)] = some s ∧
      (s.showTextures ++ [s.tmpTexture]).Perm [1, 2, 3] ∧
      s.tmpTexture ∉ s.showTextures := by
  refine ⟨by decide, ?_⟩
  obtain ⟨s0, s, h1, h2, h3, h4, -, -⟩ :=
    scratch_texture_invariant twoCellStarted envOk.genTextures ⟨800, 400⟩
      [(imgA, ⟨800, 400⟩), (imgB, ⟨640, 480⟩), (imgC, ⟨640, 480⟩)]
      (by decide) (by decide) (by decide)
  exact ⟨s0, s, h1, h2, h3, h4⟩

/-! ## The server, loop and teardown claims -/

/-- C7 (partial enqueue on decode failure).  When every `select` of the call
sends (no cancellation, room in the channel): if `j` is the first index whose
`Decode` fails, with error `e`, then `addImages`, `AddImage` and `SetGrid`
return `e` and have sent exactly the converted images of the indices below `j`,
in list order, behind what the channel held; if every `Decode` succeeds they
return no error and have sent all the images in list order. -/
theorem addImages_partial_enqueue {π ι : Type} (c : Codec π ι) (ctxErr : String)
    (sel : Nat → SelectCase) (arr : List π) (s : server)
    (hsel : ∀ i, sel i = SelectCase.send) :
    (∀ (j : Nat) (e : String) (hj : j < arr.length),
      (∀ i (hi : i < j), ∃ img, c.Decode (arr[i]) = .ok img) →
      c.Decode (arr[j]) = .error e →
      server.addImages c ctxErr sel arr s
          = (some e, { s with images := s.images ++ c.converted (arr.take j) }) ∧
      server.AddImage c ctxErr sel arr s
          = (some e, { s with images := s.images ++ c.converted (arr.take j) }) ∧
      (∀ cols rows,
        (server.SetGrid c ctxErr SelectCase.send sel ⟨cols, rows, arr⟩ s).1 = some e ∧
        (server.SetGrid c ctxErr SelectCase.send sel ⟨cols, rows, arr⟩ s).2.images
          = s.images ++ c.converted (arr.take j)) ∧
      (∀ i (hi : i < j), ∃ img, c.Decode (arr[i]) = .ok img ∧
        (c.converted (arr.take j))[i]? = some (c.toNRGBA img)) ∧
      (c.converted (arr.take j)).length = j) ∧
    ((∀ i (hi : i < arr.length), ∃ img, c.Decode (arr[i]) = .ok img) →
      server.addImages c ctxErr sel arr s
          = (none, { s with images := s.images ++ c.converted arr }) ∧
      server.AddImage c ctxErr sel arr s
          = (none, { s with images := s.images ++ c.converted arr }) ∧
      (∀ cols rows,
        (server.SetGrid c ctxErr SelectCase.send sel ⟨cols, rows, arr⟩ s).1 = none ∧
        (server.SetGrid c ctxErr SelectCase.send sel ⟨cols, rows, arr⟩ s).2.images
          = s.images ++ c.converted arr) ∧
      (∀ i (hi : i < arr.length), ∃ img, c.Decode (arr[i]) = .ok img ∧
        (c.converted arr)[i]? = some (c.toNRGBA img)) ∧
      (c.converted arr).length = arr.length) := by
  constructor
  · intro j e hj hok herr
    obtain ⟨h1, h2, h3⟩ := addImages_fail c ctxErr arr sel s j e hj hsel hok herr
    refine ⟨h1, h1, ?_, h2, h3⟩
    intro cols rows
    unfold server.SetGrid
    split_ifs
    · have := (addImages_fail c ctxErr arr sel
        { s with grid := s.grid ++ [⟨cols, rows⟩] } j e hj hsel hok herr).1
      simp only [this, and_self]
    · simp only [h1, and_self]
  · intro hok
    obtain ⟨h1, h2, h3⟩ := addImages_all c ctxErr arr sel s hsel hok
    refine ⟨h1, h1, ?_, h2, h3⟩
    intro cols rows
    unfold server.SetGrid
    split_ifs
    · have := (addImages_all c ctxErr arr sel
        { s with grid := s.grid ++ [⟨cols, rows⟩] } hsel hok).1
      simp only [this, and_self]
    · simp only [h1, and_self]

theorem addImages_partial_enqueue_witness :
    server.addImages byteCodec "context canceled" (fun _ => SelectCase.send)
        [[1], [2, 3], [], [4]] ⟨[], []⟩
      = (some "unexpected EOF",
          { (⟨[], []⟩ : server) with
            images := [] ++ byteCodec.converted ([[1], [2, 3], [], [4]].take 2) }) ∧
    (byteCodec.converted ([[1], [2, 3], [], [4]].take 2)).length = 2 :=
  have h := (addImages_partial_enqueue byteCodec "context canceled"
    (fun _ => SelectCase.send) [[1], [2, 3], [], [4]] ⟨[], []⟩ (fun _ => rfl)).1
    2 "unexpected EOF" (by decide)
    (fun i hi => by
      have : i = 0 ∨ i = 1 := by omega
      rcases this with h | h <;> subst h
      · exact ⟨_, rfl⟩
      · exact ⟨_, rfl⟩)
    rfl
  ⟨h.1, h.2.2.2.2⟩

/-- C8 as stated fails.  With a resize request waiting, an image buffered and a
tick ready, the tick case of the `select` can proceed and the iteration that
runs it draws a frame although work is pending; the image case can proceed as
well, so the waiting resize request is not taken in preference to it. -/
theorem loop_draws_with_work_pending :
    busyInput.gridReq ≠ none ∧ busyInput.imageReq ≠ [] ∧
    Branch.ready busyInput Branch.tick = true ∧
    (∃ a1, scenarioApp.loopIter busyInput Branch.tick = IterResult.continued a1 true) ∧
    Branch.ready busyInput Branch.image = true ∧
    (∃ a1, scenarioApp.loopIter busyInput Branch.image = IterResult.continued a1 false) := by
  refine ⟨by decide, by decide, rfl, ⟨_, rfl⟩, rfl, ⟨_, rfl⟩⟩

/-- C8, as the code behaves.  In an iteration of `App.loop` whose `select` runs
the case `b`: the iteration goes on only if `b` can proceed; a frame is drawn
only if `b` is the tick case, a tick is ready and the window is not closing, so
without a ready tick nothing is drawn; after the resize case or the image case
the next iteration starts without a frame drawn; the resize case leaves the
state unchanged and the image case applies `addImage` to the oldest buffered
image. -/
theorem loopIter_branches (a : App) (inp : LoopInput) (b : Branch) :
    (∀ a1 d, a.loopIter inp b = IterResult.continued a1 d → Branch.ready inp b = true) ∧
    (∀ a1, a.loopIter inp b = IterResult.continued a1 true →
      b = Branch.tick ∧ inp.tickReady = true ∧ inp.shouldClose = false) ∧
    (inp.tickReady = false → ∀ a1, a.loopIter inp b ≠ IterResult.continued a1 true) ∧
    (∀ a1 d, b = Branch.grid ∨ b = Branch.image →
      a.loopIter inp b = IterResult.continued a1 d → d = false) ∧
    (inp.shouldClose = false → inp.gridReq.isSome = true →
      a.loopIter inp Branch.grid = IterResult.continued a false) ∧
    (∀ img rest a1, inp.shouldClose = false → inp.imageReq = img :: rest →
      a.addImage img inp.fbSize = some a1 →
      a.loopIter inp Branch.image = IterResult.continued a1 false) := by
  have hdraw : ∀ a1, a.loopIter inp b = IterResult.continued a1 true →
      b = Branch.tick ∧ inp.tickReady = true ∧ inp.shouldClose = false := by
    intro a1 h
    unfold App.loopIter at h
    by_cases h1 : inp.shouldClose = true
    · simp [h1] at h
    · by_cases h2 : Branch.ready inp b = true
      · simp only [h1, h2, Bool.not_true, if_false, Bool.false_eq_true] at h
        cases b with
        | done => simp at h
        | grid => simp at h
        | image =>
          simp only at h
          split at h
          · simp at h
          · split at h <;> simp at h
        | tick => exact ⟨rfl, h2, by simpa using h1⟩
      · simp [h1, h2] at h
  refine ⟨?_, hdraw, ?_, ?_, ?_, ?_⟩
  · intro a1 d h
    unfold App.loopIter at h
    by_cases h1 : inp.shouldClose = true
    · simp [h1] at h
    · by_cases h2 : Branch.ready inp b = true
      · exact h2
      · simp [h1, h2] at h
  · intro ht a1 h
    have := (hdraw a1 h).2.1
    rw [ht] at this
    exact Bool.noConfusion this
  · intro a1 d hb h
    cases d with
    | false => rfl
    | true =>
      have := (hdraw a1 h).1
      rcases hb with hb | hb <;> rw [hb] at this <;> exact Branch.noConfusion this
  · intro h1 h2
    simp [App.loopIter, h1, Branch.ready, h2]
  · intro img rest a1 h1 h2 h3
    simp [App.loopIter, h1, Branch.ready, h2, h3]

theorem loopIter_branches_witness :
    (∃ a1, scenarioApp.loopIter busyInput Branch.tick = IterResult.continued a1 true) ∧
    Branch.tick = Branch.tick ∧ busyInput.tickReady = true ∧ busyInput.shouldClose = false ∧
    scenarioApp.loopIter busyInput Branch.grid = IterResult.continued scenarioApp false :=
  have h := loopIter_branches scenarioApp busyInput Branch.tick
  ⟨⟨_, rfl⟩, (h.2.1 _ rfl).1, (h.2.1 _ rfl).2.1, (h.2.1 _ rfl).2.2, h.2.2.2.2.1 rfl rfl⟩

/-- State and outcome of a run of `twoCellApp` in which everything succeeds
and the window is closed in the first iteration. -/
theorem run_two_cell_returns :
    ∃ a2, twoCellApp.Run envOk [(closeInput, Branch.tick)] = some (Outcome.nil, a2) :=
  ⟨_, rfl⟩

/-- C9 (LIFO teardown).  Whenever `Run` gets past the check of `n` and returns
(normally, with an error, or by a panic of the layout), the release closures
registered by then, `reg` behind those registered before the call, have each
been run once, in the reverse order of their registration, none was run before
the return, and `a.close` is empty afterwards.  `reg` is an initial part of
`registrationOrder`; when it is complete the program is deleted right after the
textures and before both shaders. -/
theorem run_teardown_lifo (a : App) (env : Env) (sched : List (LoopInput × Branch))
    (r : Outcome) (a2 : App)
    (hpass : ¬ wrapInt (a.conf.GridSize.X * a.conf.GridSize.Y) ≤ 0)
    (hrun : a.Run env sched = some (r, a2)) :
    ∃ a1 reg vert frag prog m,
      App.runBody { a with n := wrapInt (a.conf.GridSize.X * a.conf.GridSize.Y) } env sched
        = some (r, a1) ∧
      a1.close = a.close ++ reg ∧ a1.released = a.released ∧
      reg = (registrationOrder vert frag prog).take m ∧ (m ≤ 7 ∨ m = 9) ∧
      a2.close = [] ∧
      a2.released = a.released ++ (a.close ++ reg).reverse ∧
      (m = 9 → a2.released = a.released ++
        [Callback.deleteTextures, Callback.deleteProgram prog, Callback.deleteShader frag,
         Callback.deleteShader vert, Callback.deleteVertexArrays, Callback.winDestroy,
         Callback.glfwTerminate, Callback.unlockOSThread, Callback.listenerClose]
        ++ a.close.reverse) := by
  unfold App.Run at hrun
  simp only [hpass, if_false, Option.map_eq_some'] at hrun
  obtain ⟨⟨r1, a1⟩, hbody, heq⟩ := hrun
  simp only [Prod.mk.injEq] at heq
  obtain ⟨rfl, rfl⟩ := heq
  obtain ⟨hrel, reg, vert, frag, prog, m, hclose, hreg, hm⟩ :=
    runBody_registers _ env sched r1 a1 hbody
  obtain ⟨hd1, hd2⟩ := runDeferred_eq a1
  have hclose2 : a1.close = a.close ++ reg := hclose
  have hrel2 : a1.released = a.released := hrel
  refine ⟨a1, reg, vert, frag, prog, m, hbody, hclose2, hrel2, hreg, hm, hd1, ?_, ?_⟩
  · rw [hd2, hrel2, hclose2]
  · intro h9
    rw [hd2, hrel2, hclose2, hreg, h9]
    simp [registrationOrder]

theorem run_teardown_lifo_witness :
    ∃ a2, twoCellApp.Run envOk [(closeInput, Branch.tick)] = some (Outcome.nil, a2) ∧
      a2.close = [] ∧
      a2.released =
        [Callback.deleteTextures, Callback.deleteProgram 13, Callback.deleteShader 12,
         Callback.deleteShader 11, Callback.deleteVertexArrays, Callback.winDestroy,
         Callback.glfwTerminate, Callback.unlockOSThread, Callback.listenerClose] := by
  obtain ⟨a2, h2⟩ := run_two_cell_returns
  obtain ⟨a1, reg, vert, frag, prog, m, -, -, -, hreg, -, hc, hr, -⟩ :=
    run_teardown_lifo twoCellApp envOk [(closeInput, Branch.tick)] Outcome.nil a2
      (by decide) h2
  refine ⟨a2, h2, hc, ?_⟩
  have e : a2.released = [Callback.deleteTextures, Callback.deleteProgram 13,
      Callback.deleteShader 12, Callback.deleteShader 11, Callback.deleteVertexArrays,
      Callback.winDestroy, Callback.glfwTerminate, Callback.unlockOSThread,
      Callback.listenerClose] := by
    have h3 : twoCellApp.Run envOk [(closeInput, Branch.tick)] = some (Outcome.nil, a2) := h2
    have h4 : (twoCellApp.Run envOk [(closeInput, Branch.tick)]).map (fun x => x.2.released)
        = some [Callback.deleteTextures, Callback.deleteProgram 13,
          Callback.deleteShader 12, Callback.deleteShader 11, Callback.deleteVertexArrays,
          Callback.winDestroy, Callback.glfwTerminate, Callback.unlockOSThread,
          Callback.listenerClose] := rfl
    rw [h3] at h4
    exact Option.some.inj h4
  exact e

/-- C10 at the failing input `GridSize = (-1, -1)`: `n` is `1`, `Run` gets past
the check, tries to start the listener and returns its error; when everything
succeeds it runs a session of one cell with both grid dimensions negative. -/
theorem run_accepts_negative_grid :
    (negativeGridApp.Run envListenFails []).map (fun x => x.1)
      = some (Outcome.err "address already in use") ∧
    (negativeGridApp.Run envOk [(closeInput, Branch.tick)]).map
        (fun x => (x.1, x.2.n, x.2.conf.GridSize, x.2.released.length))
      = some (Outcome.nil, 1, ⟨-1, -1⟩, 9) :=
  ⟨rfl, rfl⟩

end PhotoFrame
